import Mathlib

/-!
Shallow embedding of the bambang storage engine (crates shared_types, bindereh)
for checking its natural-language specification.

Conventions of the embedding:
  * machine integers are `Nat` / `Int`; wrap-on-cast is made explicit by taking
    the value modulo 2^w at the cast site (`leBytes` writes `n mod 256^k`,
    mirroring Rust's `as u32` / `to_le_bytes`);
  * byte buffers are `List Nat` whose entries are < 256 by construction;
  * a Rust `String` is represented by its UTF-8 byte list (that is exactly the
    data a Rust `String` owns; `String::from_utf8` in the decoder is the UTF-8
    validity check `isValidUtf8`);
  * `f64` fields are represented by their 64-bit pattern (`Nat` < 2^64): the
    codec only moves the bits via `to_le_bytes` / `from_le_bytes`;
  * fallible Rust functions return `Except StorageError`; the `String` payload
    of `StorageError` carries only a human-readable message in the source and
    does not influence control flow, so the constructors here are nullary.
-/

namespace Bambang

/-- Association-list model of `std::collections::HashMap`: `alErase` removes the
key, `alInsert` overwrites it. Lookup semantics agree with the source; the
entry order (which `HashMap` leaves unspecified) is not. -/
def alErase {κ α : Type} [DecidableEq κ] (k : κ) : List (κ × α) → List (κ × α)
  | [] => []
  | e :: rest => if e.1 = k then alErase k rest else e :: alErase k rest

/-- Lookup in an association list. -/
def alLookup {κ α : Type} [DecidableEq κ] (k : κ) : List (κ × α) → Option α
  | [] => none
  | e :: rest => if e.1 = k then some e.2 else alLookup k rest

/-- Insert-or-overwrite in an association list. -/
def alInsert {κ α : Type} [DecidableEq κ] (k : κ) (v : α) (m : List (κ × α)) :
    List (κ × α) :=
  (k, v) :: alErase k m

theorem alLookup_erase {κ α : Type} [DecidableEq κ] (k j : κ) (m : List (κ × α)) :
    alLookup j (alErase k m) = if j = k then none else alLookup j m := by
  induction m with
  | nil => simp [alErase, alLookup]
  | cons e rest ih =>
    by_cases h1 : e.1 = k
    · rw [alErase, if_pos h1, ih]
      by_cases h2 : j = k
      · simp [h2]
      · rw [if_neg h2, if_neg h2, alLookup,
          if_neg (fun h : e.1 = j => h2 (h ▸ h1))]
    · rw [alErase, if_neg h1, alLookup]
      by_cases h2 : e.1 = j
      · rw [if_pos h2, if_neg (fun h : j = k => h1 (h2.symm ▸ h)), alLookup,
          if_pos h2]
      · rw [if_neg h2, ih]
        by_cases h3 : j = k
        · simp [h3]
        · rw [if_neg h3, if_neg h3, alLookup, if_neg h2]

theorem alLookup_insert {κ α : Type} [DecidableEq κ] (k j : κ) (v : α)
    (m : List (κ × α)) :
    alLookup j (alInsert k v m) = if j = k then some v else alLookup j m := by
  by_cases h : j = k
  · simp [alInsert, alLookup, h]
  · rw [alInsert, alLookup, if_neg (fun hh => h hh.symm), alLookup_erase,
      if_neg h, if_neg h]

/-! ### Little-endian byte encoding (byteorder / `to_le_bytes`) -/

/-- `k` little-endian bytes of `n` (Rust `to_le_bytes` after `n mod 256^k`,
which is what an `as uNN` cast followed by `to_le_bytes` computes). -/
def leBytes : Nat → Nat → List Nat
  | 0, _ => []
  | k + 1, n => n % 256 :: leBytes k (n / 256)

/-- Little-endian value of a byte list. -/
def leNum : List Nat → Nat
  | [] => 0
  | b :: bs => b + 256 * leNum bs

theorem leBytes_length (k n : Nat) : (leBytes k n).length = k := by
  induction k generalizing n with
  | zero => rfl
  | succ k ih => simp [leBytes, ih]

theorem leNum_leBytes (k n : Nat) : leNum (leBytes k n) = n % 256 ^ k := by
  induction k generalizing n with
  | zero => simp [leBytes, leNum]; omega
  | succ k ih =>
    rw [leBytes, leNum, ih]
    have : (256 : Nat) ^ (k + 1) = 256 * 256 ^ k := by ring
    rw [this, Nat.mod_mul]

theorem leNum_leBytes_of_lt {k n : Nat} (h : n < 256 ^ k) :
    leNum (leBytes k n) = n := by
  rw [leNum_leBytes, Nat.mod_eq_of_lt h]

/-! ### Errors and constants -/

/-- `StorageError` (src/bindereh/src/common.rs and src/shared_types/src/error.rs,
which declare identical enums). The `String` payloads only carry display
messages, so they are dropped here. `InvalidOperation` is the extra variant
referenced by join.rs / scan.rs / manager.rs (the spec lists it in its error
taxonomy in section 7, although the enum declarations in the snapshot omit it). -/
inductive StorageError where
  | CorruptedData
  | InvalidData
  | IoError
  | DuplicateKey
  | InvalidInput
  | InvalidOperation
deriving DecidableEq, Repr

/-- src/bindereh/src/common.rs line 27: 2 KiB pages. (The distinct
shared_types constant PAGE_SIZE = 1024 is not referenced by the code under
verification; page.rs and manager.rs use this one.) -/
def PAGE_SIZE : Nat := 2048

/-- src/bindereh/src/common.rs line 28. -/
def NODE_HEADER_SIZE : Nat := 16

/-- src/bindereh/src/common.rs line 29: the bound used by the insert/split
path in operator/tree.rs and operator/insert.rs. -/
def MAX_KEYS_PER_NODE : Nat := 4

/-- src/shared_types/src/constant.rs line 5: the minimum-occupancy bound.
operator/tree.rs imports this one (from shared_types) while taking
MAX_KEYS_PER_NODE from bindereh::common, so the code runs with
MIN_KEYS_PER_NODE = 63 > MAX_KEYS_PER_NODE = 4. -/
def MIN_KEYS_PER_NODE : Nat := 63

/-- src/bindereh/src/common.rs line 30: 0xDEADBEEF. -/
def MAGIC_NUMBER : Nat := 3735928559

/-- `Cursor` read of `k` little-endian bytes (byteorder `read_uNN`):
fails with CorruptedData exactly when fewer than `k` bytes remain, as the
`map_err` wrappers in page.rs do. Consuming from the front of the list is
the cursor position moving forward. -/
def readLE (k : Nat) (l : List Nat) : Except StorageError (Nat × List Nat) :=
  if k ≤ l.length then .ok (leNum (l.take k), l.drop k) else .error .CorruptedData

theorem readLE_leBytes (k n : Nat) (r : List Nat) (h : n < 256 ^ k) :
    readLE k (leBytes k n ++ r) = .ok (n, r) := by
  have hlen : (leBytes k n).length = k := leBytes_length k n
  rw [readLE, if_pos (by simp [hlen])]
  have ht := List.take_left (leBytes k n) r
  have hd := List.drop_left (leBytes k n) r
  rw [hlen] at ht hd
  rw [ht, hd, leNum_leBytes_of_lt h]

/-- Two's-complement `k`-byte image of an integer: what `iNN::to_le_bytes`
writes, as a natural number below 256^k. -/
def toTwos (k : Nat) (i : Int) : Nat := (i % ((256 : Int) ^ k)).toNat

/-- Recover a signed integer from its `k`-byte two's-complement image:
what `iNN::from_le_bytes` computes. -/
def fromTwos (k : Nat) (n : Nat) : Int :=
  if n < 128 * 256 ^ (k - 1) then (n : Int) else (n : Int) - 256 ^ k

theorem toTwos_lt (k : Nat) (i : Int) : toTwos k i < 256 ^ k := by
  have hpos : (0 : Int) < 256 ^ k := by positivity
  have h1 : i % (256 : Int) ^ k < (256 : Int) ^ k := Int.emod_lt_of_pos i hpos
  have h2 : 0 ≤ i % (256 : Int) ^ k := Int.emod_nonneg i (by positivity)
  have hcast : ((256 ^ k : Nat) : Int) = (256 : Int) ^ k := by push_cast; ring
  simp only [toTwos]
  omega

theorem fromTwos_toTwos (k : Nat) (i : Int) (hk : 0 < k)
    (hlo : -(128 * 256 ^ (k - 1) : Int) ≤ i)
    (hhi : i < (128 * 256 ^ (k - 1) : Int)) :
    fromTwos k (toTwos k i) = i := by
  have hsplit : (256 : Int) ^ k = 2 * (128 * 256 ^ (k - 1)) := by
    have hk1 : k - 1 + 1 = k := by omega
    calc (256 : Int) ^ k = 256 ^ (k - 1 + 1) := by rw [hk1]
    _ = 256 ^ (k - 1) * 256 := pow_succ _ _
    _ = 2 * (128 * 256 ^ (k - 1)) := by ring
  have hhpos : (0 : Int) < 128 * 256 ^ (k - 1) := by positivity
  have hmod : i % (256 : Int) ^ k = if 0 ≤ i then i else i + 256 ^ k := by
    by_cases h0 : 0 ≤ i
    · rw [if_pos h0]
      exact Int.emod_eq_of_lt h0 (by omega)
    · rw [if_neg h0]
      have : (i + 256 ^ k) % (256 : Int) ^ k = i % (256 : Int) ^ k := by
        rw [show i + (256 : Int) ^ k = i + 256 ^ k * 1 by ring,
          Int.add_mul_emod_self_left]
      rw [← this]
      exact Int.emod_eq_of_lt (by omega) (by omega)
  have hcast : ((128 * 256 ^ (k - 1) : Nat) : Int) = (128 * 256 ^ (k - 1) : Int) := by
    push_cast; ring
  have hcast2 : ((256 ^ k : Nat) : Int) = (256 : Int) ^ k := by push_cast; ring
  simp only [toTwos, fromTwos, hmod]
  by_cases h0 : 0 ≤ i
  · simp only [if_pos h0]
    split_ifs with h1 <;> omega
  · simp only [if_neg h0]
    split_ifs with h1 <;> omega

/-! ### UTF-8: Rust `str::from_utf8` validation and `char::encode_utf8` -/

/-- UTF-8 continuation byte test (10xxxxxx). -/
def isCont (b : Nat) : Bool := decide (128 ≤ b) && decide (b ≤ 191)

/-- Allowed second byte of a 3-byte sequence for lead byte `b` (Rust
`from_utf8`: E0 requires A0..BF, ED requires 80..9F excluding surrogates,
otherwise any continuation byte). -/
def utf8Second3 (b c1 : Nat) : Bool :=
  if b = 224 then decide (160 ≤ c1) && decide (c1 ≤ 191)
  else if b = 237 then decide (128 ≤ c1) && decide (c1 ≤ 159)
  else isCont c1

/-- Allowed second byte of a 4-byte sequence for lead byte `b` (F0 requires
90..BF excluding overlongs, F4 requires 80..8F capping at U+10FFFF). -/
def utf8Second4 (b c1 : Nat) : Bool :=
  if b = 240 then decide (144 ≤ c1) && decide (c1 ≤ 191)
  else if b = 244 then decide (128 ≤ c1) && decide (c1 ≤ 143)
  else isCont c1

/-- Decode (and fully validate) one UTF-8 character from the front of a byte
list, returning its scalar value and the remaining bytes. This is exactly the
per-character step of Rust `std::str::from_utf8` followed by `chars()`. -/
def utf8DecodeOne : List Nat → Option (Nat × List Nat)
  | [] => none
  | b :: rest =>
    if b < 128 then some (b, rest)
    else if 194 ≤ b ∧ b ≤ 223 then
      match rest with
      | c1 :: r =>
        if isCont c1 then some ((b - 192) * 64 + (c1 - 128), r) else none
      | [] => none
    else if 224 ≤ b ∧ b ≤ 239 then
      match rest with
      | c1 :: c2 :: r =>
        if utf8Second3 b c1 && isCont c2 then
          some ((b - 224) * 4096 + (c1 - 128) * 64 + (c2 - 128), r)
        else none
      | _ => none
    else if 240 ≤ b ∧ b ≤ 244 then
      match rest with
      | c1 :: c2 :: c3 :: r =>
        if utf8Second4 b c1 && isCont c2 && isCont c3 then
          some ((b - 240) * 262144 + (c1 - 128) * 4096 + (c2 - 128) * 64 +
            (c3 - 128), r)
        else none
      | _ => none
    else none

/-- Fuel-driven whole-buffer validation loop; each step consumes at least one
byte, so fuel equal to the buffer length suffices. -/
def validUtf8Go : Nat → List Nat → Bool
  | _, [] => true
  | 0, _ :: _ => false
  | f + 1, b :: rest =>
    match utf8DecodeOne (b :: rest) with
    | some (_, r) => validUtf8Go f r
    | none => false

/-- The validity check performed by Rust `String::from_utf8` in the decoders. -/
def isValidUtf8 (l : List Nat) : Bool := validUtf8Go l.length l

/-- First scalar of a byte list (`str::chars().next()`), used by the Char
decoder after validation. -/
def utf8FirstChar (l : List Nat) : Option Nat := (utf8DecodeOne l).map (·.1)

/-- Unicode scalar value test: what inhabits a Rust `char`. -/
def isValidScalar (n : Nat) : Bool :=
  decide (n < 55296) || (decide (57344 ≤ n) && decide (n < 1114112))

/-- `char::encode_utf8`: the standard 1-4 byte UTF-8 encoding of a scalar. -/
def utf8EncodeChar (n : Nat) : List Nat :=
  if n < 128 then [n]
  else if n < 2048 then [192 + n / 64, 128 + n % 64]
  else if n < 65536 then [224 + n / 4096, 128 + n / 64 % 64, 128 + n % 64]
  else [240 + n / 262144, 128 + n / 4096 % 64, 128 + n / 64 % 64, 128 + n % 64]

theorem utf8EncodeChar_length_bounds (n : Nat) :
    1 ≤ (utf8EncodeChar n).length ∧ (utf8EncodeChar n).length ≤ 4 := by
  rw [utf8EncodeChar]
  split_ifs <;> simp

theorem utf8DecodeOne_encode {n : Nat} (r : List Nat)
    (h : isValidScalar n = true) :
    utf8DecodeOne (utf8EncodeChar n ++ r) = some (n, r) := by
  have hs : n < 55296 ∨ (57344 ≤ n ∧ n < 1114112) := by
    simp only [isValidScalar, Bool.or_eq_true, Bool.and_eq_true,
      decide_eq_true_eq] at h
    omega
  by_cases h1 : n < 128
  · simp only [utf8EncodeChar, if_pos h1, List.cons_append, List.nil_append,
      utf8DecodeOne, if_pos h1]
  · by_cases h2 : n < 2048
    · have e1 : ¬ (192 + n / 64 < 128) := by omega
      have e2 : 194 ≤ 192 + n / 64 ∧ 192 + n / 64 ≤ 223 := by omega
      have e3 : isCont (128 + n % 64) = true := by
        simp only [isCont, Bool.and_eq_true, decide_eq_true_eq]
        omega
      have e4 : (192 + n / 64 - 192) * 64 + (128 + n % 64 - 128) = n := by omega
      simp only [utf8EncodeChar, if_neg h1, if_pos h2, List.cons_append,
        List.nil_append, utf8DecodeOne, if_neg e1, if_pos e2, e3, if_true, e4]
    · by_cases h3 : n < 65536
      · have e1 : ¬ (224 + n / 4096 < 128) := by omega
        have e2 : ¬ (194 ≤ 224 + n / 4096 ∧ 224 + n / 4096 ≤ 223) := by omega
        have e3 : 224 ≤ 224 + n / 4096 ∧ 224 + n / 4096 ≤ 239 := by omega
        have e4 : utf8Second3 (224 + n / 4096) (128 + n / 64 % 64) = true := by
          rw [utf8Second3]
          by_cases hb0 : n / 4096 = 0
          · rw [if_pos (by omega)]
            simp only [Bool.and_eq_true, decide_eq_true_eq]
            omega
          · by_cases hbd : n / 4096 = 13
            · rw [if_neg (by omega), if_pos (by omega)]
              have hsur : n < 55296 := by
                rcases hs with h | h
                · exact h
                · omega
              simp only [Bool.and_eq_true, decide_eq_true_eq]
              omega
            · rw [if_neg (by omega), if_neg (by omega)]
              simp only [isCont, Bool.and_eq_true, decide_eq_true_eq]
              omega
        have e5 : isCont (128 + n % 64) = true := by
          simp only [isCont, Bool.and_eq_true, decide_eq_true_eq]
          omega
        have e6 : (224 + n / 4096 - 224) * 4096 + (128 + n / 64 % 64 - 128) * 64 +
            (128 + n % 64 - 128) = n := by omega
        simp only [utf8EncodeChar, if_neg h1, if_neg h2, if_pos h3,
          List.cons_append, List.nil_append, utf8DecodeOne, if_neg e1,
          if_neg e2, if_pos e3, e4, e5, Bool.and_self, if_true, e6]
      · have hhi : n < 1114112 := by
          rcases hs with h | h
          · omega
          · exact h.2
        have e1 : ¬ (240 + n / 262144 < 128) := by omega
        have e2 : ¬ (194 ≤ 240 + n / 262144 ∧ 240 + n / 262144 ≤ 223) := by
          omega
        have e3 : ¬ (224 ≤ 240 + n / 262144 ∧ 240 + n / 262144 ≤ 239) := by
          omega
        have e4 : 240 ≤ 240 + n / 262144 ∧ 240 + n / 262144 ≤ 244 := by omega
        have e5 : utf8Second4 (240 + n / 262144) (128 + n / 4096 % 64) = true := by
          rw [utf8Second4]
          by_cases hb0 : n / 262144 = 0
          · rw [if_pos (by omega)]
            simp only [Bool.and_eq_true, decide_eq_true_eq]
            omega
          · by_cases hb4 : n / 262144 = 4
            · rw [if_neg (by omega), if_pos (by omega)]
              simp only [Bool.and_eq_true, decide_eq_true_eq]
              omega
            · rw [if_neg (by omega), if_neg (by omega)]
              simp only [isCont, Bool.and_eq_true, decide_eq_true_eq]
              omega
        have e6 : isCont (128 + n / 64 % 64) = true := by
          simp only [isCont, Bool.and_eq_true, decide_eq_true_eq]
          omega
        have e7 : isCont (128 + n % 64) = true := by
          simp only [isCont, Bool.and_eq_true, decide_eq_true_eq]
          omega
        have e8 : (240 + n / 262144 - 240) * 262144 +
            (128 + n / 4096 % 64 - 128) * 4096 + (128 + n / 64 % 64 - 128) * 64 +
            (128 + n % 64 - 128) = n := by omega
        simp only [utf8EncodeChar, if_neg h1, if_neg h2, if_neg h3,
          List.cons_append, List.nil_append, utf8DecodeOne, if_neg e1,
          if_neg e2, if_neg e3, if_pos e4, e5, e6, e7, Bool.and_self, if_true, e8]

theorem validUtf8Go_nil (f : Nat) : validUtf8Go f [] = true := by
  cases f <;> rfl

theorem isValidUtf8_encode {n : Nat} (h : isValidScalar n = true) :
    isValidUtf8 (utf8EncodeChar n) = true := by
  have hd := utf8DecodeOne_encode (n := n) [] h
  rw [List.append_nil] at hd
  rcases henc : utf8EncodeChar n with _ | ⟨b, rest⟩
  · have := (utf8EncodeChar_length_bounds n).1
    rw [henc] at this
    simp at this
  · rw [henc] at hd
    rw [isValidUtf8, List.length_cons, validUtf8Go, hd]
    exact validUtf8Go_nil _

theorem utf8FirstChar_encode {n : Nat} (h : isValidScalar n = true) :
    utf8FirstChar (utf8EncodeChar n) = some n := by
  have hd := utf8DecodeOne_encode (n := n) [] h
  rw [List.append_nil] at hd
  rw [utf8FirstChar, hd]
  rfl

/-! ### Value codec (src/bindereh/src/value.rs) -/

/-- The tagged value sum (bindereh::value::Value; shared_types re-exports an
identical enum whose source file is absent from the snapshot). Representation
choices: `Float` holds the f64 bit pattern (the codec only moves bits through
`to_le_bytes` / `from_le_bytes`); `String`/`Decimal`/`Json`/`Text` hold the
UTF-8 byte content the Rust `String` owns; `Char` holds the Unicode scalar
value. -/
inductive Value where
  | Integer (val : Int)
  | String (bytes : List Nat)
  | Float (bits : Nat)
  | Boolean (val : Bool)
  | Null
  | SmallInt (val : Int)
  | BigInt (val : Int)
  | Decimal (bytes : List Nat)
  | Binary (bytes : List Nat)
  | Date (val : Int)
  | Time (val : Nat)
  | Timestamp (val : Int)
  | DateTime (val : Int)
  | Json (bytes : List Nat)
  | Uuid (bytes : List Nat)
  | Text (bytes : List Nat)
  | Char (scalar : Nat)
  | TinyInt (val : Int)
deriving DecidableEq, Repr

/-- Type markers, value.rs lines 27-44. -/
def NULL_TYPE : Nat := 0
def INTEGER_TYPE : Nat := 1
def STRING_TYPE : Nat := 2
def FLOAT_TYPE : Nat := 3
def BOOLEAN_TYPE : Nat := 4
def SMALLINT_TYPE : Nat := 5
def BIGINT_TYPE : Nat := 6
def DECIMAL_TYPE : Nat := 7
def BINARY_TYPE : Nat := 8
def DATE_TYPE : Nat := 9
def TIME_TYPE : Nat := 10
def TIMESTAMP_TYPE : Nat := 11
def DATETIME_TYPE : Nat := 12
def JSON_TYPE : Nat := 13
def UUID_TYPE : Nat := 14
def TEXT_TYPE : Nat := 15
def CHAR_TYPE : Nat := 16
def TINYINT_TYPE : Nat := 17

/-- `serialize_string_like` / `serialize_binary` (value.rs): u32 length prefix
(the `as u32` cast is the mod-2^32 in `leBytes`) followed by the raw bytes. -/
def serialize_string_like (data : List Nat) : List Nat :=
  leBytes 4 data.length ++ data

/-- `Value::to_bytes` (value.rs lines 48-130): 1-byte tag then payload. -/
def Value.to_bytes : Value → List Nat
  | .Null => [NULL_TYPE]
  | .Integer v => INTEGER_TYPE :: leBytes 8 (toTwos 8 v)
  | .String s => STRING_TYPE :: serialize_string_like s
  | .Float bits => FLOAT_TYPE :: leBytes 8 bits
  | .Boolean b => [BOOLEAN_TYPE, if b then 1 else 0]
  | .SmallInt v => SMALLINT_TYPE :: leBytes 2 (toTwos 2 v)
  | .BigInt v => BIGINT_TYPE :: leBytes 16 (toTwos 16 v)
  | .Decimal s => DECIMAL_TYPE :: serialize_string_like s
  | .Binary b => BINARY_TYPE :: serialize_string_like b
  | .Date v => DATE_TYPE :: leBytes 4 (toTwos 4 v)
  | .Time v => TIME_TYPE :: leBytes 4 v
  | .Timestamp v => TIMESTAMP_TYPE :: leBytes 8 (toTwos 8 v)
  | .DateTime v => DATETIME_TYPE :: leBytes 8 (toTwos 8 v)
  | .Json s => JSON_TYPE :: serialize_string_like s
  | .Uuid u => UUID_TYPE :: u
  | .Text s => TEXT_TYPE :: serialize_string_like s
  | .Char c => CHAR_TYPE :: (utf8EncodeChar c).length :: utf8EncodeChar c
  | .TinyInt v => TINYINT_TYPE :: [toTwos 1 v]

/-- `deserialize_string` (value.rs): u32 length, bounds check, then
`String::from_utf8` which is the UTF-8 validity check. -/
def deserialize_string (l : List Nat) :
    Except StorageError (List Nat × List Nat) :=
  match readLE 4 l with
  | .error e => .error e
  | .ok (len, r) =>
    if len ≤ r.length then
      if isValidUtf8 (r.take len) then .ok (r.take len, r.drop len)
      else .error .CorruptedData
    else .error .CorruptedData

/-- `Value::from_bytes` (value.rs lines 133-280). The `&mut offset` cursor is
modelled by consuming from the front and returning the remaining bytes. -/
def Value.fromBytes : List Nat → Except StorageError (Value × List Nat)
  | [] => .error .CorruptedData
  | t :: rest =>
    if t = NULL_TYPE then .ok (.Null, rest)
    else if t = INTEGER_TYPE then
      match readLE 8 rest with
      | .error e => .error e
      | .ok (n, r) => .ok (.Integer (fromTwos 8 n), r)
    else if t = STRING_TYPE then
      match deserialize_string rest with
      | .error e => .error e
      | .ok (s, r) => .ok (.String s, r)
    else if t = FLOAT_TYPE then
      match readLE 8 rest with
      | .error e => .error e
      | .ok (n, r) => .ok (.Float n, r)
    else if t = BOOLEAN_TYPE then
      match readLE 1 rest with
      | .error e => .error e
      | .ok (n, r) => .ok (.Boolean (n != 0), r)
    else if t = SMALLINT_TYPE then
      match readLE 2 rest with
      | .error e => .error e
      | .ok (n, r) => .ok (.SmallInt (fromTwos 2 n), r)
    else if t = BIGINT_TYPE then
      match readLE 16 rest with
      | .error e => .error e
      | .ok (n, r) => .ok (.BigInt (fromTwos 16 n), r)
    else if t = DECIMAL_TYPE then
      match deserialize_string rest with
      | .error e => .error e
      | .ok (s, r) => .ok (.Decimal s, r)
    else if t = BINARY_TYPE then
      match readLE 4 rest with
      | .error e => .error e
      | .ok (len, r) =>
        if len ≤ r.length then .ok (.Binary (r.take len), r.drop len)
        else .error .CorruptedData
    else if t = DATE_TYPE then
      match readLE 4 rest with
      | .error e => .error e
      | .ok (n, r) => .ok (.Date (fromTwos 4 n), r)
    else if t = TIME_TYPE then
      match readLE 4 rest with
      | .error e => .error e
      | .ok (n, r) => .ok (.Time n, r)
    else if t = TIMESTAMP_TYPE then
      match readLE 8 rest with
      | .error e => .error e
      | .ok (n, r) => .ok (.Timestamp (fromTwos 8 n), r)
    else if t = DATETIME_TYPE then
      match readLE 8 rest with
      | .error e => .error e
      | .ok (n, r) => .ok (.DateTime (fromTwos 8 n), r)
    else if t = JSON_TYPE then
      match deserialize_string rest with
      | .error e => .error e
      | .ok (s, r) => .ok (.Json s, r)
    else if t = UUID_TYPE then
      if 16 ≤ rest.length then .ok (.Uuid (rest.take 16), rest.drop 16)
      else .error .CorruptedData
    else if t = TEXT_TYPE then
      match deserialize_string rest with
      | .error e => .error e
      | .ok (s, r) => .ok (.Text s, r)
    else if t = CHAR_TYPE then
      match readLE 1 rest with
      | .error e => .error e
      | .ok (len, r) =>
        if len = 0 ∨ 4 < len then .error .CorruptedData
        else if len ≤ r.length then
          if isValidUtf8 (r.take len) then
            match utf8FirstChar (r.take len) with
            | some c => .ok (.Char c, r.drop len)
            | none => .error .CorruptedData
          else .error .CorruptedData
        else .error .CorruptedData
    else if t = TINYINT_TYPE then
      match readLE 1 rest with
      | .error e => .error e
      | .ok (n, r) => .ok (.TinyInt (fromTwos 1 n), r)
    else .error .CorruptedData

/-- `Value::serialized_size` (value.rs lines 330-355), verbatim including the
`3 + char_str.len()` Char arm. -/
def Value.serialized_size : Value → Nat
  | .Null => 1
  | .Integer _ => 9
  | .String s => 5 + s.length
  | .Float _ => 9
  | .Boolean _ => 2
  | .SmallInt _ => 3
  | .BigInt _ => 17
  | .Decimal s => 5 + s.length
  | .Binary b => 5 + b.length
  | .Date _ => 5
  | .Time _ => 5
  | .Timestamp _ => 9
  | .DateTime _ => 9
  | .Json s => 5 + s.length
  | .Uuid _ => 17
  | .Text s => 5 + s.length
  | .Char c => 3 + (utf8EncodeChar c).length
  | .TinyInt _ => 2

/-- All entries are u8-sized. -/
def bytesOk (l : List Nat) : Bool := l.all (fun b => decide (b < 256))

/-- Rust typing invariants of a `Value`: each numeric payload within its
machine width, byte payloads u8-sized with a u32-expressible length, strings
valid UTF-8 (a Rust `String` invariant), `Uuid` exactly 16 bytes, `Char` a
Unicode scalar. -/
def wfValue : Value → Bool
  | .Integer v => decide (-(2 ^ 63) ≤ v) && decide (v < 2 ^ 63)
  | .String s => decide (s.length < 2 ^ 32) && bytesOk s && isValidUtf8 s
  | .Float bits => decide (bits < 2 ^ 64)
  | .Boolean _ => true
  | .Null => true
  | .SmallInt v => decide (-(2 ^ 15) ≤ v) && decide (v < 2 ^ 15)
  | .BigInt v => decide (-(2 ^ 127) ≤ v) && decide (v < 2 ^ 127)
  | .Decimal s => decide (s.length < 2 ^ 32) && bytesOk s && isValidUtf8 s
  | .Binary b => decide (b.length < 2 ^ 32) && bytesOk b
  | .Date v => decide (-(2 ^ 31) ≤ v) && decide (v < 2 ^ 31)
  | .Time v => decide (v < 2 ^ 32)
  | .Timestamp v => decide (-(2 ^ 63) ≤ v) && decide (v < 2 ^ 63)
  | .DateTime v => decide (-(2 ^ 63) ≤ v) && decide (v < 2 ^ 63)
  | .Json s => decide (s.length < 2 ^ 32) && bytesOk s && isValidUtf8 s
  | .Uuid u => decide (u.length = 16) && bytesOk u
  | .Text s => decide (s.length < 2 ^ 32) && bytesOk s && isValidUtf8 s
  | .Char c => isValidScalar c
  | .TinyInt v => decide (-(2 ^ 7) ≤ v) && decide (v < 2 ^ 7)

theorem readLE_one (b : Nat) (r : List Nat) : readLE 1 (b :: r) = .ok (b, r) := by
  simp [readLE, leNum]

theorem deserialize_string_roundtrip (s r : List Nat)
    (hlen : s.length < 2 ^ 32) (hval : isValidUtf8 s = true) :
    deserialize_string (serialize_string_like s ++ r) = .ok (s, r) := by
  rw [serialize_string_like, List.append_assoc, deserialize_string,
    readLE_leBytes 4 s.length (s ++ r) (by omega)]
  have ht : (s ++ r).take s.length = s := List.take_left s r
  have hd2 : (s ++ r).drop s.length = r := List.drop_left s r
  simp only [ht, hd2]
  rw [if_pos (by simp), if_pos hval]

/-- Round trip of the Value codec: decoding an encoding returns the value and
leaves the trailing bytes untouched, for any `Value` within its Rust typing
invariants. -/
theorem Value.fromBytes_to_bytes (v : Value) (r : List Nat)
    (h : wfValue v = true) :
    Value.fromBytes (v.to_bytes ++ r) = .ok (v, r) := by
  cases v with
  | Null =>
    simp [Value.to_bytes, Value.fromBytes, NULL_TYPE]
  | Integer val =>
    simp only [wfValue, Bool.and_eq_true, decide_eq_true_eq] at h
    rw [Value.to_bytes, INTEGER_TYPE, List.cons_append, Value.fromBytes,
      readLE_leBytes 8 _ r (toTwos_lt 8 val)]
    norm_num [NULL_TYPE, INTEGER_TYPE,
      fromTwos_toTwos 8 val (by norm_num) (by omega) (by omega)]
  | String s =>
    simp only [wfValue, Bool.and_eq_true, decide_eq_true_eq] at h
    rw [Value.to_bytes, STRING_TYPE, List.cons_append, Value.fromBytes,
      deserialize_string_roundtrip s r h.1.1 h.2]
    norm_num [NULL_TYPE, INTEGER_TYPE, STRING_TYPE]
  | Float bits =>
    simp only [wfValue, decide_eq_true_eq] at h
    rw [Value.to_bytes, FLOAT_TYPE, List.cons_append, Value.fromBytes,
      readLE_leBytes 8 bits r (by omega)]
    norm_num [NULL_TYPE, INTEGER_TYPE, STRING_TYPE, FLOAT_TYPE]
  | Boolean b =>
    cases b <;>
      simp [Value.to_bytes, Value.fromBytes, readLE_one, NULL_TYPE,
        INTEGER_TYPE, STRING_TYPE, FLOAT_TYPE, BOOLEAN_TYPE]
  | SmallInt val =>
    simp only [wfValue, Bool.and_eq_true, decide_eq_true_eq] at h
    rw [Value.to_bytes, SMALLINT_TYPE, List.cons_append, Value.fromBytes,
      readLE_leBytes 2 _ r (toTwos_lt 2 val)]
    norm_num [NULL_TYPE, INTEGER_TYPE, STRING_TYPE, FLOAT_TYPE, BOOLEAN_TYPE,
      SMALLINT_TYPE, fromTwos_toTwos 2 val (by norm_num) (by omega) (by omega)]
  | BigInt val =>
    simp only [wfValue, Bool.and_eq_true, decide_eq_true_eq] at h
    rw [Value.to_bytes, BIGINT_TYPE, List.cons_append, Value.fromBytes,
      readLE_leBytes 16 _ r (toTwos_lt 16 val)]
    norm_num [NULL_TYPE, INTEGER_TYPE, STRING_TYPE, FLOAT_TYPE, BOOLEAN_TYPE,
      SMALLINT_TYPE, BIGINT_TYPE,
      fromTwos_toTwos 16 val (by norm_num) (by omega) (by omega)]
  | Decimal s =>
    simp only [wfValue, Bool.and_eq_true, decide_eq_true_eq] at h
    rw [Value.to_bytes, DECIMAL_TYPE, List.cons_append, Value.fromBytes,
      deserialize_string_roundtrip s r h.1.1 h.2]
    norm_num [NULL_TYPE, INTEGER_TYPE, STRING_TYPE, FLOAT_TYPE, BOOLEAN_TYPE,
      SMALLINT_TYPE, BIGINT_TYPE, DECIMAL_TYPE]
  | Binary b =>
    simp only [wfValue, Bool.and_eq_true, decide_eq_true_eq] at h
    rw [Value.to_bytes, BINARY_TYPE, List.cons_append, serialize_string_like,
      List.append_assoc, Value.fromBytes,
      readLE_leBytes 4 b.length (b ++ r) (by omega)]
    have ht : (b ++ r).take b.length = b := List.take_left b r
    have hd2 : (b ++ r).drop b.length = r := List.drop_left b r
    norm_num [NULL_TYPE, INTEGER_TYPE, STRING_TYPE, FLOAT_TYPE, BOOLEAN_TYPE,
      SMALLINT_TYPE, BIGINT_TYPE, DECIMAL_TYPE, BINARY_TYPE, ht, hd2]
  | Date val =>
    simp only [wfValue, Bool.and_eq_true, decide_eq_true_eq] at h
    rw [Value.to_bytes, DATE_TYPE, List.cons_append, Value.fromBytes,
      readLE_leBytes 4 _ r (toTwos_lt 4 val)]
    norm_num [NULL_TYPE, INTEGER_TYPE, STRING_TYPE, FLOAT_TYPE, BOOLEAN_TYPE,
      SMALLINT_TYPE, BIGINT_TYPE, DECIMAL_TYPE, BINARY_TYPE, DATE_TYPE,
      fromTwos_toTwos 4 val (by norm_num) (by omega) (by omega)]
  | Time val =>
    simp only [wfValue, decide_eq_true_eq] at h
    rw [Value.to_bytes, TIME_TYPE, List.cons_append, Value.fromBytes,
      readLE_leBytes 4 val r (by omega)]
    norm_num [NULL_TYPE, INTEGER_TYPE, STRING_TYPE, FLOAT_TYPE, BOOLEAN_TYPE,
      SMALLINT_TYPE, BIGINT_TYPE, DECIMAL_TYPE, BINARY_TYPE, DATE_TYPE,
      TIME_TYPE]
  | Timestamp val =>
    simp only [wfValue, Bool.and_eq_true, decide_eq_true_eq] at h
    rw [Value.to_bytes, TIMESTAMP_TYPE, List.cons_append, Value.fromBytes,
      readLE_leBytes 8 _ r (toTwos_lt 8 val)]
    norm_num [NULL_TYPE, INTEGER_TYPE, STRING_TYPE, FLOAT_TYPE, BOOLEAN_TYPE,
      SMALLINT_TYPE, BIGINT_TYPE, DECIMAL_TYPE, BINARY_TYPE, DATE_TYPE,
      TIME_TYPE, TIMESTAMP_TYPE,
      fromTwos_toTwos 8 val (by norm_num) (by omega) (by omega)]
  | DateTime val =>
    simp only [wfValue, Bool.and_eq_true, decide_eq_true_eq] at h
    rw [Value.to_bytes, DATETIME_TYPE, List.cons_append, Value.fromBytes,
      readLE_leBytes 8 _ r (toTwos_lt 8 val)]
    norm_num [NULL_TYPE, INTEGER_TYPE, STRING_TYPE, FLOAT_TYPE, BOOLEAN_TYPE,
      SMALLINT_TYPE, BIGINT_TYPE, DECIMAL_TYPE, BINARY_TYPE, DATE_TYPE,
      TIME_TYPE, TIMESTAMP_TYPE, DATETIME_TYPE,
      fromTwos_toTwos 8 val (by norm_num) (by omega) (by omega)]
  | Json s =>
    simp only [wfValue, Bool.and_eq_true, decide_eq_true_eq] at h
    rw [Value.to_bytes, JSON_TYPE, List.cons_append, Value.fromBytes,
      deserialize_string_roundtrip s r h.1.1 h.2]
    norm_num [NULL_TYPE, INTEGER_TYPE, STRING_TYPE, FLOAT_TYPE, BOOLEAN_TYPE,
      SMALLINT_TYPE, BIGINT_TYPE, DECIMAL_TYPE, BINARY_TYPE, DATE_TYPE,
      TIME_TYPE, TIMESTAMP_TYPE, DATETIME_TYPE, JSON_TYPE]
  | Uuid u =>
    simp only [wfValue, Bool.and_eq_true, decide_eq_true_eq] at h
    have h16 : u.length = 16 := h.1
    have ht : (u ++ r).take u.length = u := List.take_left u r
    have hd2 : (u ++ r).drop u.length = r := List.drop_left u r
    rw [h16] at ht hd2
    rw [Value.to_bytes, UUID_TYPE, List.cons_append, Value.fromBytes]
    norm_num [NULL_TYPE, INTEGER_TYPE, STRING_TYPE, FLOAT_TYPE, BOOLEAN_TYPE,
      SMALLINT_TYPE, BIGINT_TYPE, DECIMAL_TYPE, BINARY_TYPE, DATE_TYPE,
      TIME_TYPE, TIMESTAMP_TYPE, DATETIME_TYPE, JSON_TYPE, UUID_TYPE, ht, hd2]
    simp [h16]
  | Text s =>
    simp only [wfValue, Bool.and_eq_true, decide_eq_true_eq] at h
    rw [Value.to_bytes, TEXT_TYPE, List.cons_append, Value.fromBytes,
      deserialize_string_roundtrip s r h.1.1 h.2]
    norm_num [NULL_TYPE, INTEGER_TYPE, STRING_TYPE, FLOAT_TYPE, BOOLEAN_TYPE,
      SMALLINT_TYPE, BIGINT_TYPE, DECIMAL_TYPE, BINARY_TYPE, DATE_TYPE,
      TIME_TYPE, TIMESTAMP_TYPE, DATETIME_TYPE, JSON_TYPE, UUID_TYPE,
      TEXT_TYPE]
  | Char c =>
    simp only [wfValue] at h
    have hlen := utf8EncodeChar_length_bounds c
    have ht : (utf8EncodeChar c ++ r).take (utf8EncodeChar c).length =
        utf8EncodeChar c := List.take_left _ r
    have hd2 : (utf8EncodeChar c ++ r).drop (utf8EncodeChar c).length = r :=
      List.drop_left _ r
    rw [Value.to_bytes, CHAR_TYPE, List.cons_append, List.cons_append,
      Value.fromBytes]
    norm_num [NULL_TYPE, INTEGER_TYPE, STRING_TYPE, FLOAT_TYPE, BOOLEAN_TYPE,
      SMALLINT_TYPE, BIGINT_TYPE, DECIMAL_TYPE, BINARY_TYPE, DATE_TYPE,
      TIME_TYPE, TIMESTAMP_TYPE, DATETIME_TYPE, JSON_TYPE, UUID_TYPE,
      TEXT_TYPE, CHAR_TYPE, readLE_one]
    rw [utf8FirstChar_encode h]
    have hne : utf8EncodeChar c ≠ [] := by
      intro he
      rw [he] at hlen
      simp at hlen
    rw [if_neg (by push_neg; exact ⟨hne, by omega⟩),
      if_pos (isValidUtf8_encode h)]
  | TinyInt val =>
    simp only [wfValue, Bool.and_eq_true, decide_eq_true_eq] at h
    rw [Value.to_bytes, TINYINT_TYPE, List.cons_append, Value.fromBytes]
    norm_num [NULL_TYPE, INTEGER_TYPE, STRING_TYPE, FLOAT_TYPE, BOOLEAN_TYPE,
      SMALLINT_TYPE, BIGINT_TYPE, DECIMAL_TYPE, BINARY_TYPE, DATE_TYPE,
      TIME_TYPE, TIMESTAMP_TYPE, DATETIME_TYPE, JSON_TYPE, UUID_TYPE,
      TEXT_TYPE, CHAR_TYPE, TINYINT_TYPE, readLE_one,
      fromTwos_toTwos 1 val (by norm_num) (by omega) (by omega)]

/-! ### Rows and pages (src/bindereh/src/page.rs) -/

/-- `Row` (shared_types::row::Row / bindereh::page::Row): row id doubling as
tree key, plus the column values. -/
structure Row where
  id : Nat
  data : List Value
deriving DecidableEq, Repr

/-- `Page` (page.rs lines 16-26). -/
structure Page where
  page_id : Nat
  is_leaf : Bool
  parent_page_id : Option Nat
  keys : List Nat
  values : List Row
  child_page_ids : List Nat
  next_leaf_page_id : Option Nat
  is_dirty : Bool
deriving DecidableEq, Repr

/-- Bytes a value contributes inside a page: u32 length prefix then
`Value::to_bytes` (page.rs `to_bytes`, row loop). -/
def valueChunk (v : Value) : List Nat :=
  leBytes 4 v.to_bytes.length ++ v.to_bytes

/-- Bytes of one row inside a leaf page: row id (u64), column count (u32),
then the length-prefixed values. -/
def rowBytes (row : Row) : List Nat :=
  leBytes 8 row.id ++ leBytes 4 row.data.length ++
    (row.data.map valueChunk).flatten

/-- Unpadded content of `Page::to_bytes`: magic, page_id, is_leaf flag,
parent (None encoded as 0), next leaf (None encoded as 0), key count + keys,
then rows (leaf) or child ids (internal). -/
def pageContent (p : Page) : List Nat :=
  leBytes 4 MAGIC_NUMBER ++ leBytes 8 p.page_id ++
    [if p.is_leaf then 1 else 0] ++
    leBytes 8 (p.parent_page_id.getD 0) ++
    leBytes 8 (p.next_leaf_page_id.getD 0) ++
    leBytes 4 p.keys.length ++ (p.keys.map (leBytes 8)).flatten ++
    (if p.is_leaf then
      leBytes 4 p.values.length ++ (p.values.map rowBytes).flatten
    else
      leBytes 4 p.child_page_ids.length ++
        (p.child_page_ids.map (leBytes 8)).flatten)

/-- `Page::to_bytes` (page.rs lines 29-90): content then
`bytes.resize(PAGE_SIZE, 0)`, which zero-pads short content and truncates
content that exceeds PAGE_SIZE. -/
def Page.to_bytes (p : Page) : List Nat :=
  if (pageContent p).length ≤ PAGE_SIZE then
    pageContent p ++ List.replicate (PAGE_SIZE - (pageContent p).length) 0
  else (pageContent p).take PAGE_SIZE

/-- Read `n` u64 values (keys or child page ids). -/
def readU64s : Nat → List Nat → Except StorageError (List Nat × List Nat)
  | 0, l => .ok ([], l)
  | n + 1, l =>
    match readLE 8 l with
    | .error e => .error e
    | .ok (k, r) =>
      match readU64s n r with
      | .error e => .error e
      | .ok (ks, r2) => .ok (k :: ks, r2)

/-- Read `n` length-prefixed values of a row (page.rs `from_bytes`, inner
loop): u32 length, bounds check against the buffer, `Value::from_bytes` on
the slice, then advance by the full declared length. -/
def readVals : Nat → List Nat → Except StorageError (List Value × List Nat)
  | 0, l => .ok ([], l)
  | n + 1, l =>
    match readLE 4 l with
    | .error e => .error e
    | .ok (len, r) =>
      if len ≤ r.length then
        match Value.fromBytes (r.take len) with
        | .error e => .error e
        | .ok (v, _) =>
          match readVals n (r.drop len) with
          | .error e => .error e
          | .ok (vs, r2) => .ok (v :: vs, r2)
      else .error .CorruptedData

/-- Read `n` rows of a leaf page: row id (u64), column count (u32), values. -/
def readRows : Nat → List Nat → Except StorageError (List Row × List Nat)
  | 0, l => .ok ([], l)
  | n + 1, l =>
    match readLE 8 l with
    | .error e => .error e
    | .ok (rid, r1) =>
      match readLE 4 r1 with
      | .error e => .error e
      | .ok (cnt, r2) =>
        match readVals cnt r2 with
        | .error e => .error e
        | .ok (vs, r3) =>
          match readRows n r3 with
          | .error e => .error e
          | .ok (rows, r4) => .ok (Row.mk rid vs :: rows, r4)

/-- `Page::from_bytes` (page.rs lines 92-223): size guard, magic check,
header fields (0 decodes to None for the optional ids), keys, then rows or
child ids; `is_dirty` always comes back false. -/
def Page.fromBytes (bytes : List Nat) : Except StorageError Page :=
  if bytes.length < NODE_HEADER_SIZE then .error .CorruptedData
  else
    match readLE 4 bytes with
    | .error _ => .error .CorruptedData
    | .ok (magic, r0) =>
      if magic ≠ MAGIC_NUMBER then .error .CorruptedData
      else
        match readLE 8 r0 with
        | .error _ => .error .CorruptedData
        | .ok (pid, r1) =>
          match readLE 1 r1 with
          | .error _ => .error .CorruptedData
          | .ok (leafByte, r2) =>
            match readLE 8 r2 with
            | .error _ => .error .CorruptedData
            | .ok (parentRaw, r3) =>
              match readLE 8 r3 with
              | .error _ => .error .CorruptedData
              | .ok (nextRaw, r4) =>
                match readLE 4 r4 with
                | .error _ => .error .CorruptedData
                | .ok (keyCount, r5) =>
                  match readU64s keyCount r5 with
                  | .error e => .error e
                  | .ok (keys, r6) =>
                    if leafByte = 1 then
                      match readLE 4 r6 with
                      | .error _ => .error .CorruptedData
                      | .ok (valueCount, r7) =>
                        match readRows valueCount r7 with
                        | .error e => .error e
                        | .ok (values, _) =>
                          .ok (Page.mk pid true
                            (if parentRaw = 0 then none else some parentRaw)
                            keys values []
                            (if nextRaw = 0 then none else some nextRaw) false)
                    else
                      match readLE 4 r6 with
                      | .error _ => .error .CorruptedData
                      | .ok (childCount, r7) =>
                        match readU64s childCount r7 with
                        | .error e => .error e
                        | .ok (children, _) =>
                          .ok (Page.mk pid false
                            (if parentRaw = 0 then none else some parentRaw)
                            keys [] children
                            (if nextRaw = 0 then none else some nextRaw) false)

/-- Rust typing invariants of a row plus u32-expressible sizes. -/
def wfRow (row : Row) : Bool :=
  decide (row.id < 2 ^ 64) && decide (row.data.length < 2 ^ 32) &&
    row.data.all (fun v => wfValue v && decide (v.to_bytes.length < 2 ^ 32))

/-- Well-formedness of a page for the codec round trip: machine-width ids and
keys, no `Some 0` in the optional ids (0 is the None encoding), the vector of
the other node kind empty (a leaf has no child ids, an internal page no
rows — `to_bytes` serializes only one of them), and the content fitting in
PAGE_SIZE (otherwise `resize` truncates). -/
def wfPage (p : Page) : Bool :=
  decide (p.page_id < 2 ^ 64) &&
  (match p.parent_page_id with
   | none => true
   | some x => decide (x ≠ 0) && decide (x < 2 ^ 64)) &&
  (match p.next_leaf_page_id with
   | none => true
   | some x => decide (x ≠ 0) && decide (x < 2 ^ 64)) &&
  decide (p.keys.length < 2 ^ 32) &&
  p.keys.all (fun k => decide (k < 2 ^ 64)) &&
  (if p.is_leaf then
    p.child_page_ids.isEmpty && decide (p.values.length < 2 ^ 32) &&
      p.values.all wfRow
   else
    p.values.isEmpty && decide (p.child_page_ids.length < 2 ^ 32) &&
      p.child_page_ids.all (fun k => decide (k < 2 ^ 64))) &&
  decide ((pageContent p).length ≤ PAGE_SIZE)

theorem readU64s_flatten (ks : List Nat) (r : List Nat)
    (h : ∀ k ∈ ks, k < 2 ^ 64) :
    readU64s ks.length ((ks.map (leBytes 8)).flatten ++ r) = .ok (ks, r) := by
  induction ks generalizing r with
  | nil => simp [readU64s]
  | cons k ks ih =>
    simp only [List.map_cons, List.flatten_cons, List.append_assoc,
      List.length_cons]
    rw [readU64s, readLE_leBytes 8 k _ (by
      have := h k (List.mem_cons_self k ks)
      omega)]
    simp only []
    rw [ih _ (fun x hx => h x (List.mem_cons_of_mem k hx))]

theorem readVals_flatten (vs : List Value) (r : List Nat)
    (h : ∀ v ∈ vs, wfValue v = true ∧ v.to_bytes.length < 2 ^ 32) :
    readVals vs.length ((vs.map valueChunk).flatten ++ r) = .ok (vs, r) := by
  induction vs generalizing r with
  | nil => simp [readVals]
  | cons v vs ih =>
    obtain ⟨hv, hvl⟩ := h v (List.mem_cons_self v vs)
    simp only [List.map_cons, List.flatten_cons, List.append_assoc,
      List.length_cons, valueChunk]
    rw [readVals, readLE_leBytes 4 _ _ (by omega)]
    simp only []
    have ht := List.take_left v.to_bytes
      ((vs.map valueChunk).flatten ++ r)
    have hd := List.drop_left v.to_bytes
      ((vs.map valueChunk).flatten ++ r)
    have hfb : Value.fromBytes v.to_bytes = .ok (v, []) := by
      have := Value.fromBytes_to_bytes v [] hv
      rwa [List.append_nil] at this
    rw [if_pos (by simp), ht, hfb]
    simp only []
    rw [hd, ih _ (fun x hx => h x (List.mem_cons_of_mem v hx))]

theorem readRows_flatten (rows : List Row) (r : List Nat)
    (h : ∀ row ∈ rows, wfRow row = true) :
    readRows rows.length ((rows.map rowBytes).flatten ++ r) = .ok (rows, r) := by
  induction rows generalizing r with
  | nil => simp [readRows]
  | cons row rows ih =>
    have hrow := h row (List.mem_cons_self row rows)
    simp only [wfRow, Bool.and_eq_true, decide_eq_true_eq, List.all_eq_true]
      at hrow
    obtain ⟨⟨hid, hcnt⟩, hvals⟩ := hrow
    simp only [List.map_cons, List.flatten_cons, List.append_assoc,
      List.length_cons, rowBytes]
    rw [readRows, readLE_leBytes 8 _ _ (by omega)]
    simp only []
    rw [readLE_leBytes 4 _ _ (by omega)]
    simp only []
    rw [readVals_flatten row.data _ (fun v hv => by
      have := hvals v hv
      simp only [Bool.and_eq_true, decide_eq_true_eq] at this
      exact this)]
    simp only []
    rw [ih _ (fun x hx => h x (List.mem_cons_of_mem row hx))]

/-- Round trip of the page codec, for a well-formed page: the decode returns
the page with `is_dirty` reset to false; the trailing bytes `rest` (the zero
padding) are ignored. -/
theorem Page.fromBytes_content (p : Page) (rest : List Nat)
    (h : wfPage p = true) :
    Page.fromBytes (pageContent p ++ rest) =
      .ok { p with is_dirty := false } := by
  obtain ⟨pid, isleaf, parent, keys, values, children, next, dirty⟩ := p
  simp only [wfPage, Bool.and_eq_true, decide_eq_true_eq, List.all_eq_true,
    List.isEmpty_iff] at h
  obtain ⟨⟨⟨⟨⟨⟨hpid, hparent⟩, hnext⟩, hkl⟩, hkeys⟩, hbranch⟩, hfit⟩ := h
  have hkeys' : ∀ k ∈ keys, k < 2 ^ 64 := fun k hk => by
    have := hkeys k hk
    simpa using this
  have hpb : parent.getD 0 < 2 ^ 64 := by
    cases parent with
    | none => simp
    | some x =>
      simp only [Bool.and_eq_true, decide_eq_true_eq] at hparent
      simpa using hparent.2
  have hnb : next.getD 0 < 2 ^ 64 := by
    cases next with
    | none => simp
    | some x =>
      simp only [Bool.and_eq_true, decide_eq_true_eq] at hnext
      simpa using hnext.2
  have hpopt : (if parent.getD 0 = 0 then none else some (parent.getD 0)) =
      parent := by
    cases parent with
    | none => simp
    | some x =>
      simp only [Bool.and_eq_true, decide_eq_true_eq] at hparent
      simp [hparent.1]
  have hnopt : (if next.getD 0 = 0 then none else some (next.getD 0)) =
      next := by
    cases next with
    | none => simp
    | some x =>
      simp only [Bool.and_eq_true, decide_eq_true_eq] at hnext
      simp [hnext.1]
  cases isleaf with
  | true =>
    simp only [if_true, Bool.and_eq_true, decide_eq_true_eq] at hbranch
    obtain ⟨⟨hch, hvl⟩, hrows⟩ := hbranch
    have hrowsAll : ∀ row ∈ values, wfRow row = true := by
      simpa [List.all_eq_true] using hrows
    have hchNil : children = [] := by simpa using hch
    simp only [pageContent, if_true, List.append_assoc, List.singleton_append, List.cons_append, List.nil_append]
    rw [Page.fromBytes]
    rw [if_neg (by
      simp only [List.length_append, leBytes_length, List.length_cons,
        NODE_HEADER_SIZE]
      omega)]
    rw [readLE_leBytes 4 MAGIC_NUMBER _ (by norm_num [MAGIC_NUMBER])]
    simp only []
    rw [if_neg (by simp)]
    rw [readLE_leBytes 8 pid _ (by omega)]
    simp only []
    rw [readLE_one]
    simp only []
    rw [readLE_leBytes 8 (parent.getD 0) _ (by omega)]
    simp only []
    rw [readLE_leBytes 8 (next.getD 0) _ (by omega)]
    simp only []
    rw [readLE_leBytes 4 keys.length _ (by omega)]
    simp only []
    rw [readU64s_flatten keys _ hkeys']
    simp only []
    simp only [if_true]
    rw [readLE_leBytes 4 values.length _ (by omega)]
    simp only []
    rw [readRows_flatten values _ hrowsAll]
    simp only []
    rw [hpopt, hnopt, hchNil]
  | false =>
    rw [if_neg (by simp)] at hbranch
    simp only [Bool.and_eq_true, decide_eq_true_eq] at hbranch
    obtain ⟨⟨hva, hcl⟩, hchildren⟩ := hbranch
    have hch' : ∀ k ∈ children, k < 2 ^ 64 := by
      simpa [List.all_eq_true] using hchildren
    have hvaNil : values = [] := by simpa using hva
    have hfe : (false = true) = False := by simp
    simp only [pageContent, hfe, if_false, List.append_assoc,
      List.singleton_append, List.cons_append, List.nil_append]
    rw [Page.fromBytes]
    rw [if_neg (by
      simp only [List.length_append, leBytes_length, List.length_cons,
        NODE_HEADER_SIZE]
      omega)]
    rw [readLE_leBytes 4 MAGIC_NUMBER _ (by norm_num [MAGIC_NUMBER])]
    simp only []
    rw [if_neg (by simp)]
    rw [readLE_leBytes 8 pid _ (by omega)]
    simp only []
    rw [readLE_one]
    simp only []
    rw [readLE_leBytes 8 (parent.getD 0) _ (by omega)]
    simp only []
    rw [readLE_leBytes 8 (next.getD 0) _ (by omega)]
    simp only []
    rw [readLE_leBytes 4 keys.length _ (by omega)]
    simp only []
    rw [readU64s_flatten keys _ hkeys']
    simp only []
    rw [if_neg (by simp)]
    rw [readLE_leBytes 4 children.length _ (by omega)]
    simp only []
    rw [readU64s_flatten children _ hch']
    simp only []
    rw [hpopt, hnopt, hvaNil]

theorem Page.to_bytes_length (p : Page) : (Page.to_bytes p).length = PAGE_SIZE := by
  rw [Page.to_bytes]
  split_ifs with hfit
  · simp only [List.length_append, List.length_replicate]
    omega
  · simp only [List.length_take]
    omega

/-- Round trip of the page codec: `from_bytes (to_bytes p)` returns `p` with
`is_dirty` reset, for a well-formed page (whose content fits in PAGE_SIZE). -/
theorem Page.fromBytes_to_bytes_page (p : Page) (h : wfPage p = true) :
    Page.fromBytes (Page.to_bytes p) = .ok { p with is_dirty := false } := by
  have hfit : (pageContent p).length ≤ PAGE_SIZE := by
    simp only [wfPage, Bool.and_eq_true, decide_eq_true_eq] at h
    exact h.2
  rw [Page.to_bytes, if_pos hfit]
  exact Page.fromBytes_content p _ h

/-! ### Schema (src/shared_types/src/schema.rs) -/

/-- `DataType` (schema.rs). -/
inductive DataType where
  | Integer | String | Float | Boolean | SmallInt | BigInt | Decimal | Binary
  | Date | Time | Timestamp | DateTime | Json | Uuid | Text | Char | TinyInt
deriving DecidableEq, Repr

/-- `Column` (schema.rs). -/
structure Column where
  name : String
  data_type : DataType
  nullable : Bool
  primary_key : Bool
deriving DecidableEq, Repr

/-- `Schema` (schema.rs): ordered columns plus the name-to-index map built by
`Schema::new` (later duplicates overwrite earlier entries, as `HashMap::insert`
does). -/
structure Schema where
  columns : List Column
  column_map : List (String × Nat)
deriving DecidableEq, Repr

/-- `Schema::new`. -/
def Schema.new (columns : List Column) : Schema :=
  ⟨columns, columns.enum.foldl (fun m p => alInsert p.2.name p.1 m) []⟩

def Schema.get_column_index (s : Schema) (name : String) : Option Nat :=
  alLookup name s.column_map

def Schema.get_column (s : Schema) (name : String) : Option Column :=
  (alLookup name s.column_map).bind (fun idx => s.columns.get? idx)

/-- `Schema::get_column_indices`: all names resolve or the whole call is None. -/
def Schema.get_column_indices (s : Schema) (names : List String) :
    Option (List Nat) :=
  match names with
  | [] => some []
  | n :: rest =>
    match alLookup n s.column_map with
    | none => none
    | some idx =>
      match s.get_column_indices rest with
      | none => none
      | some idxs => some (idx :: idxs)

/-- `Schema::project_row`: keeps in-bounds indices only. -/
def Schema.project_row (_s : Schema) (row : Row) (indices : List Nat) : Row :=
  Row.mk row.id (indices.filterMap (fun idx => row.data.get? idx))

def Schema.column_count (s : Schema) : Nat := s.columns.length

def Schema.has_column (s : Schema) (name : String) : Bool :=
  (alLookup name s.column_map).isSome

/-! ### Value comparison and predicates (src/bindereh/src/operator/compare.rs,
src/shared_types/src/scan.rs) -/

/-- NaN test on an f64 bit pattern (exponent all ones, non-zero mantissa). -/
def f64IsNaN (bits : Nat) : Bool :=
  decide (bits / 2 ^ 52 % 2 ^ 11 = 2047) && decide (bits % 2 ^ 52 ≠ 0)

/-- `f64::partial_cmp` on bit patterns, with `unwrap_or(Equal)` as compare.rs
does: NaN on either side yields Equal; negative and positive zero compare
equal; otherwise sign then magnitude (IEEE-754 ordering). -/
def f64Cmp (a b : Nat) : Ordering :=
  if f64IsNaN a || f64IsNaN b then .eq
  else
    if a % 2 ^ 63 = 0 ∧ b % 2 ^ 63 = 0 then .eq
    else if a / 2 ^ 63 ≠ b / 2 ^ 63 then (if a / 2 ^ 63 = 1 then .lt else .gt)
    else if a / 2 ^ 63 = 0 then compare (a % 2 ^ 63) (b % 2 ^ 63)
    else compare (b % 2 ^ 63) (a % 2 ^ 63)

/-- Lexicographic byte-list comparison: Rust `Ord` for `String` (byte-wise)
and `Vec<u8>`. -/
def bytesCmp : List Nat → List Nat → Ordering
  | [], [] => .eq
  | [], _ :: _ => .lt
  | _ :: _, [] => .gt
  | a :: as', b :: bs' =>
    match compare a b with
    | .eq => bytesCmp as' bs'
    | o => o

/-- Approximate rendering of `format!` with the Debug formatter, used only by
the heterogeneous fallback arm of `compare_values` below. The spec (section 9,
open question c) flags that fallback as undefined behavior to be replaced;
no theorem in this development depends on this rendering (every compared pair
in the claims is homogeneous or involves Null), so payload renderings are
simplified (e.g. the f64 bit pattern is printed as an integer). -/
def debugString : Value → String
  | .Integer v => "Integer(" ++ toString v ++ ")"
  | .String s => "String(" ++ toString s ++ ")"
  | .Float bits => "Float(" ++ toString bits ++ ")"
  | .Boolean b => "Boolean(" ++ toString b ++ ")"
  | .Null => "Null"
  | .SmallInt v => "SmallInt(" ++ toString v ++ ")"
  | .BigInt v => "BigInt(" ++ toString v ++ ")"
  | .Decimal s => "Decimal(" ++ toString s ++ ")"
  | .Binary b => "Binary(" ++ toString b ++ ")"
  | .Date v => "Date(" ++ toString v ++ ")"
  | .Time v => "Time(" ++ toString v ++ ")"
  | .Timestamp v => "Timestamp(" ++ toString v ++ ")"
  | .DateTime v => "DateTime(" ++ toString v ++ ")"
  | .Json s => "Json(" ++ toString s ++ ")"
  | .Uuid u => "Uuid(" ++ toString u ++ ")"
  | .Text s => "Text(" ++ toString s ++ ")"
  | .Char c => "Char(" ++ toString c ++ ")"
  | .TinyInt v => "TinyInt(" ++ toString v ++ ")"

/-- `compare_values` (compare.rs lines 86-104): numeric comparison within a
type, Null below everything, and the debug-format-string fallback for
heterogeneous pairs. -/
def compare_values (a b : Value) : Ordering :=
  match a, b with
  | .Integer x, .Integer y => compare x y
  | .String x, .String y => bytesCmp x y
  | .Float x, .Float y => f64Cmp x y
  | .Boolean x, .Boolean y => compare x y
  | .SmallInt x, .SmallInt y => compare x y
  | .BigInt x, .BigInt y => compare x y
  | .TinyInt x, .TinyInt y => compare x y
  | .Date x, .Date y => compare x y
  | .Time x, .Time y => compare x y
  | .Timestamp x, .Timestamp y => compare x y
  | .DateTime x, .DateTime y => compare x y
  | .Null, .Null => .eq
  | .Null, _ => .lt
  | _, .Null => .gt
  | x, y => compare (debugString x) (debugString y)

/-- `Predicate` (shared_types scan.rs). `stop` stands for the source field
`end`, which is a reserved word here. -/
inductive Predicate where
  | ColumnEquals (column : String) (value : Value)
  | ColumnNotEquals (column : String) (value : Value)
  | ColumnGreaterThan (column : String) (value : Value)
  | ColumnLessThan (column : String) (value : Value)
  | ColumnGreaterThanOrEqual (column : String) (value : Value)
  | ColumnLessThanOrEqual (column : String) (value : Value)
  | ColumnIn (column : String) (values : List Value)
  | ColumnNotIn (column : String) (values : List Value)
  | ColumnIsNull (column : String)
  | ColumnIsNotNull (column : String)
  | ColumnLike (column : String) (pattern : String)
  | ColumnBetween (column : String) (start : Value) (stop : Value)
  | And (left : Predicate) (right : Predicate)
  | Or (left : Predicate) (right : Predicate)
  | Not (inner : Predicate)
deriving DecidableEq, Repr

/-- Cached column indices: `Option<HashMap<String, usize>>` as an optional
association list. -/
def CachedIndices : Type := Option (List (String × Nat))

/-- `Row::get_value`. -/
def Row.get_value (row : Row) (index : Nat) : Option Value :=
  row.data.get? index

/-- `match_value_optimized` (compare.rs lines 106-122): false when the column
is not in the cached map or the index is out of bounds in the row. -/
def match_value_optimized (column : String) (row : Row) (value : Value)
    (ord : Ordering) (cached : Option (List (String × Nat))) : Bool :=
  match cached.bind (alLookup column) with
  | some idx =>
    match row.data.get? idx with
    | some rv => decide (compare_values rv value = ord)
    | none => false
  | none => false

/-- `match_any_optimized`. The source parameter `matches` is a reserved word
here and appears as `orderings`. -/
def match_any_optimized (column : String) (row : Row) (value : Value)
    (orderings : List Ordering) (cached : Option (List (String × Nat))) : Bool :=
  match cached.bind (alLookup column) with
  | some idx =>
    match row.data.get? idx with
    | some rv => orderings.contains (compare_values rv value)
    | none => false
  | none => false

/-- `in_list_optimized`. -/
def in_list_optimized (column : String) (row : Row) (values : List Value)
    (cached : Option (List (String × Nat))) : Bool :=
  match cached.bind (alLookup column) with
  | some idx =>
    match row.data.get? idx with
    | some rv => values.any (fun v => decide (compare_values rv v = .eq))
    | none => false
  | none => false

/-- `match_null_optimized`. -/
def match_null_optimized (column : String) (row : Row) (is_null : Bool)
    (cached : Option (List (String × Nat))) : Bool :=
  match cached.bind (alLookup column) with
  | some idx =>
    match row.data.get? idx with
    | some rv => (match rv with | .Null => true | _ => false) == is_null
    | none => false
  | none => false

/-- Glob matching over the translated LIKE pattern: `%` maps to `.*`, `_` to
`.`, and a literal `.` left in the pattern is a regex wildcard as well. Other
characters match literally (their byte value); this models the compiled,
double-anchored regex of `match_like_optimized` for patterns free of further
regex metacharacters. No claim exercises this matcher (the claims about LIKE
concern the unresolved-column short-circuit, which happens before it). -/
def likeGlobMatch : List Char → List Nat → Bool
  | [], [] => true
  | [], _ :: _ => false
  | p :: ps, s =>
    if p = '%' then
      match s with
      | [] => likeGlobMatch ps []
      | _ :: s' => likeGlobMatch ps s || likeGlobMatch ('%' :: ps) s'
    else if p = '_' ∨ p = '.' then
      match s with
      | [] => false
      | _ :: s' => likeGlobMatch ps s'
    else
      match s with
      | c :: s' => decide (c = p.toNat) && likeGlobMatch ps s'
      | [] => false
termination_by pl sl => (pl.length, sl.length)

/-- `match_like_optimized` (compare.rs lines 174-191): only a resolved
`Value::String` cell is matched against the pattern; everything else is
false. -/
def match_like_optimized (column : String) (row : Row) (pattern : String)
    (cached : Option (List (String × Nat))) : Bool :=
  match cached.bind (alLookup column) with
  | some idx =>
    match row.data.get? idx with
    | some (.String s) => likeGlobMatch pattern.data s
    | _ => false
  | none => false

/-- `evaluate_predicate_optimized` (compare.rs lines 441-513). -/
def evaluate_predicate_optimized (p : Predicate) (row : Row) (schema : Schema)
    (cached : Option (List (String × Nat))) : Bool :=
  match p with
  | .ColumnEquals column value =>
    match_value_optimized column row value .eq cached
  | .ColumnNotEquals column value =>
    !(match_value_optimized column row value .eq cached)
  | .ColumnGreaterThan column value =>
    match_value_optimized column row value .gt cached
  | .ColumnLessThan column value =>
    match_value_optimized column row value .lt cached
  | .ColumnGreaterThanOrEqual column value =>
    match_any_optimized column row value [.gt, .eq] cached
  | .ColumnLessThanOrEqual column value =>
    match_any_optimized column row value [.lt, .eq] cached
  | .ColumnIn column values => in_list_optimized column row values cached
  | .ColumnNotIn column values => !(in_list_optimized column row values cached)
  | .ColumnIsNull column => match_null_optimized column row true cached
  | .ColumnIsNotNull column => match_null_optimized column row false cached
  | .ColumnLike column pattern => match_like_optimized column row pattern cached
  | .ColumnBetween column start stop =>
    (match cached.bind (alLookup column) with
     | some idx =>
       match row.data.get? idx with
       | some rv =>
         let startCmp := compare_values rv start
         let endCmp := compare_values rv stop
         decide (startCmp = .gt ∨ startCmp = .eq) &&
           decide (endCmp = .lt ∨ endCmp = .eq)
       | none => false
     | none => false)
  | .And left right =>
    evaluate_predicate_optimized left row schema cached &&
      evaluate_predicate_optimized right row schema cached
  | .Or left right =>
    evaluate_predicate_optimized left row schema cached ||
      evaluate_predicate_optimized right row schema cached
  | .Not inner => !(evaluate_predicate_optimized inner row schema cached)

/-- `collect_predicate_columns` (compare.rs lines 546-580). -/
def collect_predicate_columns (p : Predicate) (schema : Schema)
    (indices : List (String × Nat)) : List (String × Nat) :=
  match p with
  | .ColumnEquals column _ | .ColumnNotEquals column _
  | .ColumnGreaterThan column _ | .ColumnLessThan column _
  | .ColumnGreaterThanOrEqual column _ | .ColumnLessThanOrEqual column _
  | .ColumnIn column _ | .ColumnNotIn column _
  | .ColumnIsNull column | .ColumnIsNotNull column
  | .ColumnLike column _ | .ColumnBetween column _ _ =>
    match schema.get_column_index column with
    | some idx => alInsert column idx indices
    | none => indices
  | .And left right | .Or left right =>
    collect_predicate_columns right schema
      (collect_predicate_columns left schema indices)
  | .Not inner => collect_predicate_columns inner schema indices

/-- `extract_predicate_column_indices`. -/
def extract_predicate_column_indices (p : Predicate) (schema : Schema) :
    List (String × Nat) :=
  collect_predicate_columns p schema []

/-- `SortDirection` (shared_types scan.rs). -/
inductive SortDirection where
  | Ascending
  | Descending
deriving DecidableEq, Repr

/-- `OrderBy` (shared_types scan.rs). -/
structure OrderBy where
  column : String
  direction : SortDirection
deriving DecidableEq, Repr

/-- The composite comparator closure of `sort_rows` (compare.rs lines
286-304): first non-equal key decides; unresolved columns or missing cells
fall through to the next key. -/
def sortRowsCmp (order_by : List OrderBy) (schema : Schema) (a b : Row) :
    Ordering :=
  match order_by with
  | [] => .eq
  | o :: rest =>
    match schema.get_column_index o.column with
    | some idx =>
      match a.data.get? idx, b.data.get? idx with
      | some va, some vb =>
        let c := compare_values va vb
        let c' := match o.direction with
          | .Ascending => c
          | .Descending => c.swap
        if c' ≠ .eq then c' else sortRowsCmp rest schema a b
      | _, _ => sortRowsCmp rest schema a b
    | none => sortRowsCmp rest schema a b

/-- Stable insertion relative to a comparator: a new element goes after every
earlier element it ties with. -/
def insertBy {α : Type} (cmp : α → α → Ordering) (x : α) : List α → List α
  | [] => [x]
  | y :: ys => if cmp x y = .lt then x :: y :: ys else y :: insertBy cmp x ys

/-- Stable sort by a comparator. Rust `sort_by` is a stable sort; for a
comparator that is a total preorder any two stable sorts agree, so insertion
sort represents it faithfully. -/
def stableSortBy {α : Type} (cmp : α → α → Ordering) (l : List α) : List α :=
  l.foldl (fun acc x => insertBy cmp x acc) []

/-- `sort_rows` (compare.rs lines 286-304). -/
def sort_rows (rows : List Row) (order_by : List OrderBy) (schema : Schema) :
    List Row :=
  stableSortBy (sortRowsCmp order_by schema) rows

/-! ### Page manager (src/bindereh/src/manager.rs)

The manager owns the data file, the buffer pool, `next_page_id` and the leaf
registry. For the tree-level operations the pool and the file agree on every
page after each `write_page` (`write_page` persists, puts the written page
into the pool and clears its dirty mark, and a subsequent `read_page` serves
that page), so the two are merged into one page map holding for each id the
last page written, exactly as the last `write_page` left it (in particular
with its `is_dirty` field as the writer set it, which is what a pool hit
returns). I/O failures and panics are outside the model; a `readPage` miss on
a never-written id stands for them. -/

structure Store where
  pages : List (Nat × Page)
  nextPageId : Nat
  registry : List Nat
deriving DecidableEq, Repr

/-- `read_page`: pool-or-disk read of the last written page. -/
def Store.readPage (s : Store) (id : Nat) : Option Page := alLookup id s.pages

/-- `write_page`: the written page becomes the page under its id. -/
def Store.writePage (s : Store) (p : Page) : Store :=
  { s with pages := alInsert p.page_id p s.pages }

/-- `allocate_page` (manager.rs lines 131-136): return then post-increment. -/
def Store.allocatePage (s : Store) : Nat × Store :=
  (s.nextPageId, { s with nextPageId := s.nextPageId + 1 })

/-- `register_leaf_page` / `LeafPageRegistry::add_leaf_page`: append the id
(no duplicate check). -/
def Store.registerLeafPage (s : Store) (id : Nat) : Store :=
  { s with registry := s.registry ++ [id] }

/-- `truncate` (manager.rs lines 148-181): clear the pool, reset
`next_page_id` to 1, truncate the data file, then write a fresh empty root
leaf at `*next_page_id` (= 1) WITHOUT allocating it, and register it in the
leaf registry. The registry file itself is not cleared. -/
def Store.truncate (s : Store) : Store :=
  let s1 : Store := { pages := [], nextPageId := 1, registry := s.registry }
  let rootPageId := s1.nextPageId
  let rootNode : Page := Page.mk rootPageId true none [] [] [] none true
  (s1.writePage rootNode).registerLeafPage rootPageId

/-! ### Tree operations (src/bindereh/src/operator/tree.rs, insert path) -/

/-- `SplitResult` (tree.rs). -/
inductive SplitResult where
  | NewRoot (id : Nat)
  | PromotedKey (key : Nat) (newChildId : Nat)
deriving DecidableEq, Repr

/-- Outcome of a storage operation: a value with the resulting store, an
error value with the store as mutated so far (Rust `?` returns the error but
keeps all completed writes), or `stuck` for a panic / I/O failure outside the
model. -/
inductive OpResult (α : Type) where
  | ok (val : α) (s : Store)
  | fail (e : StorageError) (s : Store)
  | stuck
deriving DecidableEq, Repr

/-- Child choice of `find_leaf_for_key` (tree.rs lines 42-49): first index
whose key exceeds the search key, else the last child. -/
def findChildIndex (keys : List Nat) (key : Nat) : Nat :=
  (keys.findIdx? (fun k => decide (key < k))).getD keys.length

/-- `find_leaf_for_key` (tree.rs lines 34-53); the recursion over child pages
carries fuel, and `none` stands for a panic (child index out of bounds) or a
failed page read. -/
def findLeafForKey : Nat → Store → Nat → Page → Option Nat
  | 0, _, _, _ => none
  | fuel + 1, s, key, node =>
    if node.is_leaf then some node.page_id
    else
      match node.child_page_ids.get? (findChildIndex node.keys key) with
      | none => none
      | some cid =>
        match s.readPage cid with
        | none => none
        | some child => findLeafForKey fuel s key child

/-- `create_new_root` (tree.rs lines 98-125): allocate, re-parent both
children (reading each fresh from storage, in order: left then right), then
write the new root. -/
def create_new_root (s : Store) (leftChildId key rightChildId : Nat) :
    OpResult Nat :=
  let alloc := s.allocatePage
  let newRootId := alloc.1
  let s1 := alloc.2
  let newRoot : Page :=
    Page.mk newRootId false none [key] [] [leftChildId, rightChildId] none true
  match s1.readPage leftChildId with
  | none => .stuck
  | some lc =>
    let s2 := s1.writePage
      { lc with parent_page_id := some newRootId, is_dirty := true }
    match s2.readPage rightChildId with
    | none => .stuck
    | some rc =>
      let s3 := s2.writePage
        { rc with parent_page_id := some newRootId, is_dirty := true }
      .ok newRootId (s3.writePage newRoot)

/-- `split_leaf_node` (tree.rs lines 71-96): allocate a page, move the upper
half of keys/values there (`split_off(mid)`), link it into the leaf chain,
write and register it; the promoted key is a copy of the new leaf's first
key. A root leaf goes through `create_new_root`. Returns the split result
together with the mutated left node (which the caller still owns and writes
later). -/
def split_leaf_node (s : Store) (node : Page) : OpResult (SplitResult × Page) :=
  let mid := node.keys.length / 2
  let alloc := s.allocatePage
  let newPageId := alloc.1
  let s1 := alloc.2
  let newNode : Page :=
    Page.mk newPageId true node.parent_page_id (node.keys.drop mid)
      (node.values.drop mid) [] node.next_leaf_page_id true
  match newNode.keys.get? 0 with
  | none => .stuck
  | some promotedKey =>
    let node' := { node with
      keys := node.keys.take mid,
      values := node.values.take mid,
      next_leaf_page_id := some newPageId }
    let s2 := (s1.writePage newNode).registerLeafPage newPageId
    if node'.parent_page_id = none then
      match create_new_root s2 node'.page_id promotedKey newPageId with
      | .ok newRootId s3 => .ok (SplitResult.NewRoot newRootId, node') s3
      | .fail e s3 => .fail e s3
      | .stuck => .stuck
    else .ok (SplitResult.PromotedKey promotedKey newPageId, node') s2

/-- Re-parent every child moved by an internal split (tree.rs lines 185-190). -/
def reparentChildren : Store → List Nat → Nat → Option Store
  | s, [], _ => some s
  | s, c :: cs, pid =>
    match s.readPage c with
    | none => none
    | some child =>
      reparentChildren
        (s.writePage { child with parent_page_id := some pid, is_dirty := true })
        cs pid

/-- `split_internal_node` (tree.rs lines 166-201): the middle key moves up
(`split_off(mid+1)` then `pop`), the right part of keys and children goes to
a fresh page whose children are re-parented. -/
def split_internal_node (s : Store) (node : Page) :
    OpResult (SplitResult × Page) :=
  let mid := node.keys.length / 2
  match node.keys.get? mid with
  | none => .stuck
  | some promotedKey =>
    let alloc := s.allocatePage
    let newPageId := alloc.1
    let s1 := alloc.2
    let newNode : Page :=
      Page.mk newPageId false node.parent_page_id (node.keys.drop (mid + 1)) []
        (node.child_page_ids.drop (mid + 1)) none true
    let node' := { node with
      keys := (node.keys.take (mid + 1)).dropLast,
      child_page_ids := node.child_page_ids.take (mid + 1),
      is_dirty := true }
    match reparentChildren s1 newNode.child_page_ids newPageId with
    | none => .stuck
    | some s2 =>
      let s3 := s2.writePage newNode
      if node'.parent_page_id = none then
        match create_new_root s3 node'.page_id promotedKey newPageId with
        | .ok nr s4 => .ok (SplitResult.NewRoot nr, node') s4
        | .fail e s4 => .fail e s4
        | .stuck => .stuck
      else .ok (SplitResult.PromotedKey promotedKey newPageId, node') s3

/-- The loop body of `slice::binary_search` from the Rust standard library:
`mid = left + size/2` with `size = right - left`; element Less than the
target moves `left`, Greater moves `right`, Equal returns. Fuel decreases
strictly each iteration, so `length + 1` suffices. -/
def rustBinarySearchGo (keys : List Nat) (key : Nat) :
    Nat → Nat → Nat → Except Nat Nat
  | 0, left, _ => .error left
  | fuel + 1, left, right =>
    if left < right then
      let size := right - left
      let mid := left + size / 2
      let k := keys.getD mid 0
      if k < key then rustBinarySearchGo keys key fuel (mid + 1) right
      else if key < k then rustBinarySearchGo keys key fuel left mid
      else .ok mid
    else .error left

/-- `slice::binary_search`: `.ok i` is `Ok(i)` (key found at `i`), `.error p`
is `Err(p)` (insert position `p`). -/
def rustBinarySearch (keys : List Nat) (key : Nat) : Except Nat Nat :=
  rustBinarySearchGo keys key (keys.length + 1) 0 keys.length

/-- `insert_into_parent` (tree.rs lines 128-164): binary-search the insert
position, insert the key and the right-child id, split on overflow and
recurse upward with the promoted key. -/
def insert_into_parent : Nat → Store → Option Nat → Nat → Nat →
    OpResult (Option Nat)
  | _, s, none, _, _ => .ok none s
  | 0, _, some _, _, _ => .stuck
  | fuel + 1, s, some parentId, key, rightChildId =>
    match s.readPage parentId with
    | none => .stuck
    | some parentNode =>
      let insertPos :=
        match rustBinarySearch parentNode.keys key with
        | .ok p => p
        | .error p => p
      let parent1 := { parentNode with
        keys := parentNode.keys.insertIdx insertPos key,
        child_page_ids :=
          parentNode.child_page_ids.insertIdx (insertPos + 1) rightChildId,
        is_dirty := true }
      if parent1.keys.length > MAX_KEYS_PER_NODE then
        match split_internal_node s parent1 with
        | .stuck => .stuck
        | .fail e s' => .fail e s'
        | .ok (SplitResult.NewRoot newRootId, parent2) s' =>
          .ok (some newRootId) (s'.writePage parent2)
        | .ok (SplitResult.PromotedKey pk nc, parent2) s' =>
          insert_into_parent fuel (s'.writePage parent2)
            parent2.parent_page_id pk nc
      else .ok none (s.writePage parent1)

/-- `InsertResult` (operator/insert.rs). -/
structure InsertResult where
  new_root_id : Option Nat
  success : Bool
deriving DecidableEq, Repr

/-- `InsertOperation::execute` (operator/insert.rs lines 27-92): descend to
the target leaf, reject an existing key with DuplicateKey before any write,
insert at the binary-search position, split on overflow, and finally write
the (left) leaf back. The source calls `binary_search` twice (once for the
duplicate check, once for the position); both calls are the single
deterministic `rustBinarySearch` here. -/
def InsertOperation.execute (fuel : Nat) (s : Store) (row : Row)
    (rootPageId : Nat) : OpResult InsertResult :=
  match s.readPage rootPageId with
  | none => .stuck
  | some rootPage =>
    match findLeafForKey fuel s row.id rootPage with
    | none => .stuck
    | some leafPageId =>
      match s.readPage leafPageId with
      | none => .stuck
      | some leafPage =>
        match rustBinarySearch leafPage.keys row.id with
        | .ok _ => .fail .DuplicateKey s
        | .error insertPos =>
          let leaf1 := { leafPage with
            keys := leafPage.keys.insertIdx insertPos row.id,
            values := leafPage.values.insertIdx insertPos row,
            is_dirty := true }
          if leaf1.keys.length > MAX_KEYS_PER_NODE then
            match split_leaf_node s leaf1 with
            | .stuck => .stuck
            | .fail e s' => .fail e s'
            | .ok (SplitResult.NewRoot rootId, leaf2) s' =>
              .ok (InsertResult.mk (some rootId) true) (s'.writePage leaf2)
            | .ok (SplitResult.PromotedKey pk newChild, leaf2) s' =>
              match insert_into_parent fuel s' leaf2.parent_page_id pk newChild
                with
              | .stuck => .stuck
              | .fail e s'' => .fail e s''
              | .ok newRootOpt s'' =>
                .ok (InsertResult.mk newRootOpt true) (s''.writePage leaf2)
          else .ok (InsertResult.mk none true) (s.writePage leaf1)

/-- `InsertOperation::execute_batch` (operator/insert.rs lines 95-117):
per-row inserts threading the current root id forward. -/
def InsertOperation.execute_batch (fuel : Nat) (s : Store) (rows : List Row)
    (rootPageId : Nat) : OpResult InsertResult :=
  go fuel s rows rootPageId none
where
  go (fuel : Nat) (s : Store) (rows : List Row) (currentRootId : Nat)
      (finalNewRootId : Option Nat) : OpResult InsertResult :=
    match rows with
    | [] => .ok (InsertResult.mk finalNewRootId true) s
    | row :: rest =>
      match InsertOperation.execute fuel s row currentRootId with
      | .stuck => .stuck
      | .fail e s' => .fail e s'
      | .ok res s' =>
        match res.new_root_id with
        | some newRoot => go fuel s' rest newRoot (some newRoot)
        | none => go fuel s' rest currentRootId finalNewRootId

/-! ### Scan (src/bindereh/src/operator/scan.rs, sequential path)

The read-ahead buffer only changes where a page's bytes come from (buffer,
pool or disk), never which page is processed, so the model reads each leaf
directly from the store. -/

/-- `ScanOptions` (shared_types scan.rs). -/
structure ScanOptions where
  predicate : Option Predicate
  projection : Option (List String)
  limit : Option Nat
  offset : Option Nat
  parallel : Bool
  order_by : Option (List OrderBy)
  schema : Option Schema
deriving DecidableEq, Repr

/-- `ScanResult` (shared_types scan.rs). -/
structure ScanResult where
  rows : List Row
  total_scanned : Nat
  pages_read : Nat
  filtered_count : Nat
  result_schema : Option Schema
deriving DecidableEq, Repr

/-- The per-row streaming loop of `sequential_scan` (scan.rs lines 342-385):
count the row, stop once `filtered_count` reaches the effective limit, apply
the predicate (a row passes when predicate or schema is absent), then count
and project it. Returns the counters, the accumulated rows, and whether the
loop broke early. -/
def scanRowsLoop (options : ScanOptions)
    (predIdx : Option (List (String × Nat))) (projIdx : Option (List Nat)) :
    Option Nat → List Row → Nat → Nat → List Row →
    (Nat × Nat × List Row × Bool)
  | _, [], total, filtered, acc => (total, filtered, acc, false)
  | effLimit, row :: rest, total, filtered, acc =>
    let total1 := total + 1
    if (match effLimit with
        | some el => decide (el ≤ filtered)
        | none => false) = true then
      (total1, filtered, acc, true)
    else
      let pass :=
        match options.predicate, options.schema with
        | some pred, some schema =>
          evaluate_predicate_optimized pred row schema predIdx
        | _, _ => true
      if pass = false then
        scanRowsLoop options predIdx projIdx effLimit rest total1 filtered acc
      else
        let projected :=
          match projIdx, options.schema with
          | some idx, some schema => schema.project_row row idx
          | _, _ => row
        scanRowsLoop options predIdx projIdx effLimit rest total1
          (filtered + 1) (acc ++ [projected])

/-- The leaf loop of `sequential_scan` (scan.rs lines 318-431): follow
`next_leaf_page_id`, processing each page's rows, stopping at the effective
limit. Fuel bounds the chain; `none` is a failed page read. -/
def scanLeavesLoop (s : Store) (options : ScanOptions)
    (predIdx : Option (List (String × Nat))) (projIdx : Option (List Nat))
    (effLimit : Option Nat) :
    Nat → Option Nat → Nat → Nat → Nat → List Row →
    Option (Nat × Nat × Nat × List Row)
  | 0, _, _, _, _, _ => none
  | _ + 1, none, total, filtered, pages, acc =>
    some (total, filtered, pages, acc)
  | fuel + 1, some leafId, total, filtered, pages, acc =>
    match s.readPage leafId with
    | none => none
    | some page =>
      let pages1 := pages + 1
      match scanRowsLoop options predIdx projIdx effLimit page.values total
        filtered acc with
      | (total1, filtered1, acc1, stopped) =>
        if stopped then some (total1, filtered1, pages1, acc1)
        else if (match effLimit with
            | some el => decide (el ≤ filtered1)
            | none => false) = true then
          some (total1, filtered1, pages1, acc1)
        else
          scanLeavesLoop s options predIdx projIdx effLimit fuel
            page.next_leaf_page_id total1 filtered1 pages1 acc1

/-- `sequential_scan` (scan.rs lines 302-457): resolve projection indices,
the result schema and the predicate's column indices once; compute
`effective_limit = limit + offset`; stream the leaf chain with early
termination at the effective limit; then sort (when `order_by` and a result
schema are present and rows is non-empty), drop `offset`, and truncate to
`limit`. Note the early termination is applied whether or not `order_by` is
set. -/
def sequential_scan (s : Store) (fuel : Nat) (startLeafId : Nat)
    (options : ScanOptions) : Option ScanResult :=
  let projIdx :=
    match options.projection, options.schema with
    | some proj, some schema => schema.get_column_indices proj
    | _, _ => none
  let result_schema :=
    match options.projection, options.schema with
    | some proj, some schema =>
      some (Schema.new (proj.filterMap (fun col => schema.get_column col)))
    | _, _ => options.schema
  let predIdx :=
    match options.predicate, options.schema with
    | some pred, some schema =>
      some (extract_predicate_column_indices pred schema)
    | _, _ => none
  let effLimit :=
    match options.limit, options.offset with
    | some l, some o => some (l + o)
    | some l, none => some l
    | _, _ => none
  match scanLeavesLoop s options predIdx projIdx effLimit fuel
    (some startLeafId) 0 0 0 [] with
  | none => none
  | some (total, filtered, pages, rows0) =>
    let rows1 :=
      match options.order_by, result_schema with
      | some ob, some rs => if rows0.isEmpty then rows0 else sort_rows rows0 ob rs
      | _, _ => rows0
    let rows2 :=
      match options.offset with
      | some off => if off < rows1.length then rows1.drop off else []
      | none => rows1
    let rows3 :=
      match options.limit with
      | some lim => if lim < rows2.length then rows2.take lim else rows2
      | none => rows2
    some (ScanResult.mk rows3 total pages filtered result_schema)

/-- All rows of the leaf chain in order (for the reference semantics below). -/
def collectChainRows (s : Store) : Nat → Option Nat → Option (List Row)
  | 0, _ => none
  | _ + 1, none => some []
  | fuel + 1, some id =>
    match s.readPage id with
    | none => none
    | some page =>
      match collectChainRows s fuel page.next_leaf_page_id with
      | none => none
      | some rest => some (page.values ++ rest)

/-- Modelled from the spec: the result rows a scan with `order_by` is
specified to return — materialize ALL rows passing the predicate (no early
termination), stable-sort them with the composite comparator, drop the first
`offset` rows and truncate to `limit`; the result is rows [O, O+L) of the
full ordered filtered result. -/
def specOrderedScanRows (s : Store) (fuel : Nat) (startLeafId : Nat)
    (options : ScanOptions) : Option (List Row) :=
  match collectChainRows s fuel (some startLeafId) with
  | none => none
  | some allRows =>
    let filtered :=
      match options.predicate, options.schema with
      | some pred, some schema =>
        allRows.filter (fun row => evaluate_predicate_optimized pred row schema
          (some (extract_predicate_column_indices pred schema)))
      | _, _ => allRows
    let sorted :=
      match options.order_by, options.schema with
      | some ob, some sch => sort_rows filtered ob sch
      | _, _ => filtered
    let afterOffset := sorted.drop (options.offset.getD 0)
    some (match options.limit with
      | some l => afterOffset.take l
      | none => afterOffset)

/-! ### Hash join (src/bindereh/src/operator/join.rs) -/

/-- `JoinType` (join.rs). -/
inductive JoinType where
  | Inner
  | LeftOuter
  | RightOuter
  | FullOuter
deriving DecidableEq, Repr

/-- `JoinCondition` (join.rs). -/
structure JoinCondition where
  left_column : String
  right_column : String
deriving DecidableEq, Repr

/-- `JoinResult` (join.rs). -/
structure JoinResult where
  rows : List Row
  result_schema : Schema
  left_rows_processed : Nat
  right_rows_processed : Nat
  output_rows : Nat
deriving DecidableEq, Repr

/-- `extract_join_key` (join.rs lines 240-262): for each condition pick the
left or right column name according to `is_left`, resolve it in the given
schema (InvalidOperation if absent or out of bounds) and collect the cell
values in declared order. -/
def extract_join_key (conds : List JoinCondition) (row : Row) (schema : Schema)
    (is_left : Bool) : Except StorageError (List Value) :=
  match conds with
  | [] => .ok []
  | c :: rest =>
    let columnName := if is_left then c.left_column else c.right_column
    match schema.get_column_index columnName with
    | none => .error .InvalidOperation
    | some idx =>
      match row.get_value idx with
      | none => .error .InvalidOperation
      | some v =>
        match extract_join_key rest row schema is_left with
        | .error e => .error e
        | .ok key => .ok (v :: key)

/-- `entry(key).or_insert_with(Vec::new).push(row)`: append the row to the
key's bucket, creating the bucket if needed. -/
def htInsert (key : List Value) (row : Row) :
    List (List Value × List Row) → List (List Value × List Row)
  | [] => [(key, [row])]
  | (k, rs) :: rest =>
    if k = key then (k, rs ++ [row]) :: rest
    else (k, rs) :: htInsert key row rest

/-- Hash-table lookup. -/
def htGet (key : List Value) (table : List (List Value × List Row)) :
    Option (List Row) :=
  match table with
  | [] => none
  | (k, rs) :: rest => if k = key then some rs else htGet key rest

/-- `build_hash_table` (join.rs lines 219-231). Note the hardcoded
`is_left = false`: keys are always extracted with the RIGHT-side column
names, whichever side's rows are being indexed. -/
def build_hash_table (conds : List JoinCondition) (rows : List Row)
    (schema : Schema) : Except StorageError (List (List Value × List Row)) :=
  go rows []
where
  go : List Row → List (List Value × List Row) →
      Except StorageError (List (List Value × List Row))
    | [], t => .ok t
    | row :: rest, t =>
      match extract_join_key conds row schema false with
      | .error e => .error e
      | .ok key => go rest (htInsert key row t)

/-- `merge_rows` (join.rs lines 265-278). -/
def merge_rows (left_row right_row : Row) : Row :=
  Row.mk left_row.id (left_row.data ++ right_row.data)

/-- `create_null_row` (join.rs lines 280-283). -/
def create_null_row (schema : Schema) : Row :=
  Row.mk 0 (List.replicate schema.column_count Value.Null)

/-- `build_result_schema` (join.rs lines 285-305): left columns then right
columns, duplicated right names prefixed with `right_`. -/
def build_result_schema (left_schema right_schema : Schema) : Schema :=
  Schema.new (left_schema.columns ++ right_schema.columns.map (fun c =>
    if left_schema.has_column c.name then
      { c with name := "right_" ++ c.name }
    else c))

/-- HashSet-of-keys insert (dedup). -/
def keySetInsert (key : List Value) (s : List (List Value)) :
    List (List Value) :=
  if s.contains key then s else s ++ [key]

/-- Probe loop of `right_outer_hash_join` (join.rs lines 146-160): for each
right row extract its key with the right-side names, emit the cross product
with the matching left rows, or a null-extended row when no match. -/
def rojProbe (conds : List JoinCondition) (ht : List (List Value × List Row))
    (left_schema right_schema : Schema) :
    List Row → List Row → List (List Value) →
    Except StorageError (List Row)
  | [], acc, _ => .ok acc
  | rrow :: rest, acc, matched =>
    match extract_join_key conds rrow right_schema false with
    | .error e => .error e
    | .ok key =>
      match htGet key ht with
      | some lrows =>
        rojProbe conds ht left_schema right_schema rest
          (acc ++ lrows.map (fun l => merge_rows l rrow))
          (keySetInsert key matched)
      | none =>
        rojProbe conds ht left_schema right_schema rest
          (acc ++ [merge_rows (create_null_row left_schema) rrow]) matched

/-- `execute` specialized to RightOuter → `right_outer_hash_join` (join.rs
lines 47-63 and 133-169): build the hash table over the LEFT rows (but with
`build_hash_table`'s hardcoded right-column key extraction), then probe with
the right rows. -/
def right_outer_hash_join (conds : List JoinCondition)
    (left_rows right_rows : List Row) (left_schema right_schema : Schema) :
    Except StorageError JoinResult :=
  let result_schema := build_result_schema left_schema right_schema
  match build_hash_table conds left_rows left_schema with
  | .error e => .error e
  | .ok ht =>
    match rojProbe conds ht left_schema right_schema right_rows [] [] with
    | .error e => .error e
    | .ok rows =>
      .ok (JoinResult.mk rows result_schema left_rows.length right_rows.length
        rows.length)

/-! ### Buffer pool (src/bindereh/src/pool.rs)

The doubly linked LRU list threaded through the map is represented by the
id list `order` (head = most recently used, last = tail); `put_page`'s
front-push, `move_to_front`'s unlink/relink and `evict_lru`'s tail removal
are exactly the three pointer manipulations of the source. -/

structure Pool where
  cache : List (Nat × Page)
  order : List Nat
  dirty : List (Nat × Page)
  max_pages : Nat
deriving DecidableEq, Repr

def Pool.new (max_pages : Nat) : Pool := ⟨[], [], [], max_pages⟩

/-- `move_to_front` (pool.rs lines 97-133). -/
def Pool.move_to_front (p : Pool) (id : Nat) : Pool :=
  if p.order.head? = some id then p
  else { p with order := id :: p.order.erase id }

/-- `evict_lru` (pool.rs lines 137-159): remove the tail entry from the LRU
list, from the DIRTY set, and from the cache. -/
def Pool.evict_lru (p : Pool) : Pool :=
  match p.order.getLast? with
  | none => p
  | some tailId =>
    if (alLookup tailId p.cache).isSome then
      { p with
        order := p.order.dropLast,
        dirty := alErase tailId p.dirty,
        cache := alErase tailId p.cache }
    else p

/-- `get_page` (pool.rs lines 43-53): hit promotes to most recently used. -/
def Pool.get_page (p : Pool) (id : Nat) : Option Page × Pool :=
  match alLookup id p.cache with
  | some page => (some page, p.move_to_front id)
  | none => (none, p)

/-- `put_page` (pool.rs lines 55-94): update-and-promote on a present id,
otherwise evict the LRU tail when the cache is at or above `max_pages` and
push the new entry at the front; in either case a dirty page is also recorded
in the dirty set. -/
def Pool.put_page (p : Pool) (id : Nat) (page : Page) : Pool :=
  let p1 :=
    if (alLookup id p.cache).isSome then
      (Pool.mk (alInsert id page p.cache) p.order p.dirty
        p.max_pages).move_to_front id
    else
      let p' := if p.max_pages ≤ p.cache.length then p.evict_lru else p
      { p' with cache := alInsert id page p'.cache, order := id :: p'.order }
  if page.is_dirty then { p1 with dirty := alInsert id page p1.dirty } else p1

/-- `get_dirty_pages` (pool.rs lines 166-168). -/
def Pool.get_dirty_pages (p : Pool) : List Page := p.dirty.map (·.2)

/-- `is_dirty` (pool.rs lines 203-205). -/
def Pool.is_dirty_page (p : Pool) (id : Nat) : Bool :=
  (alLookup id p.dirty).isSome

theorem rustBinarySearchGo_finds (keys : List Nat) (key : Nat)
    (hsorted : keys.Pairwise (· < ·)) :
    ∀ fuel left right, right ≤ keys.length → right - left ≤ fuel →
      (∃ j, left ≤ j ∧ j < right ∧ keys.get? j = some key) →
      ∃ i, rustBinarySearchGo keys key fuel left right = .ok i := by
  intro fuel
  induction fuel with
  | zero =>
    intro left right _ hf hex
    obtain ⟨j, hj1, hj2, _⟩ := hex
    omega
  | succ fuel ih =>
    intro left right hr hf hex
    obtain ⟨j, hj1, hj2, hjget⟩ := hex
    have hjlen : j < keys.length := by omega
    have hjval : keys.get ⟨j, hjlen⟩ = key := by
      have := List.get?_eq_get hjlen
      rw [this] at hjget
      exact Option.some_injective _ hjget
    have hlr : left < right := by omega
    rw [rustBinarySearchGo, if_pos hlr]
    have hmidlt : left + (right - left) / 2 < right := by omega
    have hmidlen : left + (right - left) / 2 < keys.length := by omega
    have hkd : keys.getD (left + (right - left) / 2) 0 =
        keys.get ⟨left + (right - left) / 2, hmidlen⟩ := by
      rw [List.getD_eq_getElem?_getD, List.getElem?_eq_getElem hmidlen]
      rfl
    have hmono : ∀ (a b : Nat) (ha : a < keys.length) (hb : b < keys.length),
        a < b → keys.get ⟨a, ha⟩ < keys.get ⟨b, hb⟩ := by
      intro a b ha hb hab
      exact List.pairwise_iff_get.mp hsorted ⟨a, ha⟩ ⟨b, hb⟩ hab
    by_cases h1 : keys.getD (left + (right - left) / 2) 0 < key
    · rw [if_pos h1]
      apply ih (left + (right - left) / 2 + 1) right hr (by omega)
      refine ⟨j, ?_, hj2, hjget⟩
      by_contra hlt
      push_neg at hlt
      rcases Nat.lt_or_ge j (left + (right - left) / 2) with hjm | hjm
      · have := hmono j (left + (right - left) / 2) hjlen hmidlen hjm
        rw [hjval, ← hkd] at this
        omega
      · have hje : j = left + (right - left) / 2 := by omega
        rw [hkd] at h1
        have : keys.get ⟨j, hjlen⟩ =
            keys.get ⟨left + (right - left) / 2, hmidlen⟩ := by
          congr 1
          exact Fin.ext hje
        rw [hjval] at this
        omega
    · rw [if_neg h1]
      by_cases h2 : key < keys.getD (left + (right - left) / 2) 0
      · rw [if_pos h2]
        apply ih left (left + (right - left) / 2) (by omega) (by omega)
        refine ⟨j, hj1, ?_, hjget⟩
        by_contra hge
        push_neg at hge
        rcases Nat.lt_or_ge (left + (right - left) / 2) j with hjm | hjm
        · have := hmono (left + (right - left) / 2) j hmidlen hjlen hjm
          rw [hjval, ← hkd] at this
          omega
        · have hje : j = left + (right - left) / 2 := by omega
          rw [hkd] at h2
          have : keys.get ⟨j, hjlen⟩ =
              keys.get ⟨left + (right - left) / 2, hmidlen⟩ := by
            congr 1
            exact Fin.ext hje
          rw [hjval] at this
          omega
      · rw [if_neg h2]
        exact ⟨left + (right - left) / 2, rfl⟩

/-- On a strictly sorted key list, `binary_search` finds every present key:
the `Ok` branch (DuplicateKey in the insert path) is taken. -/
theorem rustBinarySearch_mem {keys : List Nat} {key : Nat}
    (hsorted : keys.Pairwise (· < ·)) (hmem : key ∈ keys) :
    ∃ i, rustBinarySearch keys key = .ok i := by
  obtain ⟨⟨j, hjlen⟩, hjval⟩ := List.mem_iff_get.mp hmem
  apply rustBinarySearchGo_finds keys key hsorted (keys.length + 1) 0
    keys.length (le_refl _) (by omega)
  exact ⟨j, Nat.zero_le _, hjlen, by rw [List.get?_eq_get hjlen, hjval]⟩

/-! ### Concrete stores and runs used by the claim theorems -/

/-- A row whose single column repeats its id, as the split/promotion scenario
uses. -/
def rowOf (n : Nat) : Row := Row.mk n [Value.Integer (Int.ofNat n)]

/-- A fresh manager state: no pages, `next_page_id = 1` (manager.rs `new`),
empty registry. -/
def emptyStore : Store := Store.mk [] 1 []

/-- The root initialization the bambang driver performs (src/bambang/src/main.rs
lines 133-145): allocate the root page id (getting 1, bumping next_page_id
to 2), write an empty root leaf there and register it. -/
def freshRootStore : Store :=
  let a := emptyStore.allocatePage
  (a.2.writePage (Page.mk a.1 true none [] [] [] none true)).registerLeafPage a.1

/-- The store an operation run left behind (both on success and on a returned
error; none if the run hit an unmodelled panic). -/
def storeAfter {α : Type} (r : OpResult α) : Option Store :=
  match r with
  | .ok _ s => some s
  | .fail _ s => some s
  | .stuck => none

/-- A page of the store an operation run left behind. -/
def pageAfter {α : Type} (r : OpResult α) (id : Nat) : Option Page :=
  (storeAfter r).bind (fun s => s.readPage id)

/-- Inserting keys 1..5 into the freshly initialized tree. -/
def c1Run : OpResult InsertResult :=
  InsertOperation.execute_batch 20 freshRootStore
    [rowOf 1, rowOf 2, rowOf 3, rowOf 4, rowOf 5] 1

/-- Inserting keys 1..5 into a freshly truncated tree. -/
def c2Run : OpResult InsertResult :=
  InsertOperation.execute_batch 20 emptyStore.truncate
    [rowOf 1, rowOf 2, rowOf 3, rowOf 4, rowOf 5] 1

/-- C1: the claim states that after any insert/delete sequence from an empty
tree every non-root node holds at least MIN_KEYS_PER_NODE keys. The code runs
with MIN_KEYS_PER_NODE = 63 (imported from shared_types by tree.rs) against
MAX_KEYS_PER_NODE = 4 (bindereh::common), so the bound is unsatisfiable:
already after inserting 1..5 into a fresh tree, the split produces the
non-root leaf page 2 (child of root 3) holding 3 < 63 keys. -/
theorem c1_min_keys_violated_by_insert :
    (pageAfter c1Run 2).map (fun p => (p.parent_page_id, p.keys.length)) =
        some (some 3, 3) ∧
      3 < MIN_KEYS_PER_NODE ∧ MAX_KEYS_PER_NODE < MIN_KEYS_PER_NODE := by
  decide

/-- C2: the claim expects truncate-then-insert-1..5 to yield a root with keys
3 over two leaves 1,2 and 3,4,5 with the registry holding both leaf ids.
Because `truncate` leaves `next_page_id = 1` while the root it writes also has
page id 1, the first leaf split allocates page id 1 over the root: the final
state has only pages 1 and 2, the root (page 2, keys 3) points TWICE at page
1, the only leaf holds keys 1,2 with its next-leaf pointer aimed at itself,
the rows 3,4,5 are lost, and the registry reads 1,1. -/
theorem c2_truncate_split_collision :
    (pageAfter c2Run 2).map (fun p => (p.is_leaf, p.keys, p.child_page_ids)) =
        some (false, [3], [1, 1]) ∧
      (pageAfter c2Run 1).map (fun p => (p.keys, p.next_leaf_page_id)) =
        some ([1, 2], some 1) ∧
      (storeAfter c2Run).map (fun s => (s.pages.map Prod.fst, s.registry)) =
        some ([1, 2], [1, 1]) := by
  decide

/-- C3: inserting a row whose id already sits in the target leaf (located by
the usual descent, with the leaf's keys sorted as the tree keeps them)
returns the DuplicateKey error, and the returned store is the UNCHANGED input
store: no page and not the registry was touched, so any later scan sees
exactly the rows it saw before the failed call. -/
theorem c3_duplicate_insert_rejected (fuel : Nat) (s : Store) (row : Row)
    (rootPageId leafPageId : Nat) (rootPage leafPage : Page)
    (hroot : s.readPage rootPageId = some rootPage)
    (hfind : findLeafForKey fuel s row.id rootPage = some leafPageId)
    (hleaf : s.readPage leafPageId = some leafPage)
    (hsorted : leafPage.keys.Pairwise (· < ·))
    (hmem : row.id ∈ leafPage.keys) :
    InsertOperation.execute fuel s row rootPageId = .fail .DuplicateKey s := by
  obtain ⟨i, hbs⟩ := rustBinarySearch_mem hsorted hmem
  rw [InsertOperation.execute, hroot]
  simp only []
  rw [hfind]
  simp only []
  rw [hleaf]
  simp only []
  rw [hbs]

/-- The store of the C3 witness: one root leaf holding the single row 5. -/
def c3WitnessStore : Store :=
  Store.mk [(1, Page.mk 1 true none [5] [rowOf 5] [] none false)] 2 [1]

/-- Witness for C3 at a concrete store: re-inserting id 5 fails with
DuplicateKey and leaves the store untouched. -/
theorem c3_duplicate_insert_rejected_witness :
    InsertOperation.execute 1 c3WitnessStore (rowOf 5) 1 =
      .fail .DuplicateKey c3WitnessStore :=
  c3_duplicate_insert_rejected 1 c3WitnessStore (rowOf 5) 1 1
    (Page.mk 1 true none [5] [rowOf 5] [] none false)
    (Page.mk 1 true none [5] [rowOf 5] [] none false)
    (by decide) (by decide) (by decide) (by decide) (by decide)

/-- C4: the claim states `serialized_size` equals the encoded length for all
18 variants including Char. For `Value::Char('a')` the encoder emits tag,
length byte and 1 UTF-8 byte (3 bytes) while `serialized_size` returns
3 + len = 4, contradicting its own comment (1 byte type + 1 byte length +
char bytes). -/
theorem c4_char_serialized_size_mismatch :
    (Value.Char 97).serialized_size = 4 ∧
      ((Value.Char 97).to_bytes).length = 3 ∧
      (Value.Char 97).serialized_size ≠ ((Value.Char 97).to_bytes).length := by
  decide

/-- A page with `parent_page_id = Some 0`: legal for the Rust struct, but 0
is the None encoding. -/
def c5Page : Page := Page.mk 2 true (some 0) [] [] [] none false

/-- The successfully decoded page, if any. -/
def okPage (r : Except StorageError Page) : Option Page :=
  match r with
  | .ok p => some p
  | .error _ => none

/-- The same page with the parent pointer absent: it encodes to the very
same bytes, since 0 encodes None. -/
def c5PageNoParent : Page := Page.mk 2 true none [] [] [] none false

/-- C5 counterexample: the round trip fails as literally stated, at a page
whose parent id is Some 0 — the codec returns it with `parent_page_id = None`,
and `is_dirty` is not what differs. -/
theorem c5_roundtrip_counterexample :
    (okPage (Page.fromBytes (Page.to_bytes c5Page))).map Page.parent_page_id =
        some none ∧
      c5Page.parent_page_id = some 0 ∧
      some (none : Option Nat) ≠ some (some 0) := by
  have hwf : wfPage c5PageNoParent = true := by decide
  have hrt := Page.fromBytes_to_bytes_page c5PageNoParent hwf
  have hbytes : Page.to_bytes c5Page = Page.to_bytes c5PageNoParent := by
    simp [Page.to_bytes, pageContent, c5Page, c5PageNoParent]
  refine ⟨?_, rfl, by decide⟩
  rw [hbytes, hrt]
  rfl

/-- C5 amended: the codec round-trips once a value sits within its Rust
typing invariants (machine-width numerics, u32-expressible lengths, valid
UTF-8 strings) and a page in addition encodes None-ably (no Some 0 optional
id), keeps the other node kind's vector empty and fits in PAGE_SIZE;
`is_dirty` comes back false, and the padded page image is always exactly
PAGE_SIZE bytes. -/
theorem c5_codec_roundtrip_amended :
    (∀ v : Value, wfValue v = true →
        Value.fromBytes v.to_bytes = .ok (v, [])) ∧
      (∀ p : Page, wfPage p = true →
        Page.fromBytes (Page.to_bytes p) = .ok { p with is_dirty := false }) ∧
      (∀ p : Page, (Page.to_bytes p).length = PAGE_SIZE) := by
  refine ⟨fun v hv => ?_, fun p hp => Page.fromBytes_to_bytes_page p hp,
    fun p => Page.to_bytes_length p⟩
  have := Value.fromBytes_to_bytes v [] hv
  rwa [List.append_nil] at this

/-- A well-formed concrete leaf page for the C5 witness. -/
def c5WitnessPage : Page := Page.mk 1 true none [5] [rowOf 5] [] none true

/-- Witness for C5 at concrete inputs: an Integer value and a one-row leaf
page round-trip. -/
theorem c5_codec_roundtrip_witness :
    Value.fromBytes (Value.Integer 7).to_bytes = .ok (Value.Integer 7, []) ∧
      Page.fromBytes (Page.to_bytes c5WitnessPage) =
        .ok { c5WitnessPage with is_dirty := false } :=
  ⟨c5_codec_roundtrip_amended.1 (Value.Integer 7) (by decide),
    c5_codec_roundtrip_amended.2.1 c5WitnessPage (by decide)⟩

/-- A column is unresolved for a row: it is absent from the cached index map,
or its cached index falls outside the row. -/
theorem match_value_unresolved (column : String) (row : Row) (value : Value)
    (ord : Ordering) (cached : Option (List (String × Nat)))
    (h : ∀ idx, cached.bind (alLookup column) = some idx →
      row.data.get? idx = none) :
    match_value_optimized column row value ord cached = false := by
  rw [match_value_optimized]
  cases hc : cached.bind (alLookup column) with
  | none => rfl
  | some idx =>
    simp only []
    rw [h idx hc]

theorem match_any_unresolved (column : String) (row : Row) (value : Value)
    (orderings : List Ordering) (cached : Option (List (String × Nat)))
    (h : ∀ idx, cached.bind (alLookup column) = some idx →
      row.data.get? idx = none) :
    match_any_optimized column row value orderings cached = false := by
  rw [match_any_optimized]
  cases hc : cached.bind (alLookup column) with
  | none => rfl
  | some idx =>
    simp only []
    rw [h idx hc]

theorem in_list_unresolved (column : String) (row : Row) (values : List Value)
    (cached : Option (List (String × Nat)))
    (h : ∀ idx, cached.bind (alLookup column) = some idx →
      row.data.get? idx = none) :
    in_list_optimized column row values cached = false := by
  rw [in_list_optimized]
  cases hc : cached.bind (alLookup column) with
  | none => rfl
  | some idx =>
    simp only []
    rw [h idx hc]

theorem match_null_unresolved (column : String) (row : Row) (is_null : Bool)
    (cached : Option (List (String × Nat)))
    (h : ∀ idx, cached.bind (alLookup column) = some idx →
      row.data.get? idx = none) :
    match_null_optimized column row is_null cached = false := by
  rw [match_null_optimized]
  cases hc : cached.bind (alLookup column) with
  | none => rfl
  | some idx =>
    simp only []
    rw [h idx hc]

theorem match_like_unresolved (column : String) (row : Row) (pattern : String)
    (cached : Option (List (String × Nat)))
    (h : ∀ idx, cached.bind (alLookup column) = some idx →
      row.data.get? idx = none) :
    match_like_optimized column row pattern cached = false := by
  rw [match_like_optimized]
  cases hc : cached.bind (alLookup column) with
  | none => rfl
  | some idx =>
    simp only []
    rw [h idx hc]

/-- C6 counterexample: the claim says evaluation returns false on an
unresolved column for every predicate form, including ColumnNotEquals; but on
a row with no resolvable columns (no cached index map at all),
ColumnNotEquals evaluates to TRUE — it negates the inner false. -/
theorem c6_negated_unresolved_counterexample :
    evaluate_predicate_optimized
        (Predicate.ColumnNotEquals "x" (Value.Integer 1))
        (Row.mk 1 []) (Schema.new []) none = true := by
  decide

/-- C6 amended: on an unresolved column (absent from the cached indices, or
cached index out of bounds in the row), every NON-negated atomic form
(equals, ordering comparisons, In, IsNull, IsNotNull, Like, Between)
evaluates to false; the negated forms ColumnNotEquals and ColumnNotIn, and
Not applied to such an atom, evaluate to true. -/
theorem c6_unresolved_column_evaluation (column : String) (value : Value)
    (values : List Value) (pattern : String) (start stop : Value) (row : Row)
    (schema : Schema) (cached : Option (List (String × Nat)))
    (h : ∀ idx, cached.bind (alLookup column) = some idx →
      row.data.get? idx = none) :
    evaluate_predicate_optimized (.ColumnEquals column value) row schema
        cached = false ∧
      evaluate_predicate_optimized (.ColumnGreaterThan column value) row
        schema cached = false ∧
      evaluate_predicate_optimized (.ColumnLessThan column value) row schema
        cached = false ∧
      evaluate_predicate_optimized (.ColumnGreaterThanOrEqual column value)
        row schema cached = false ∧
      evaluate_predicate_optimized (.ColumnLessThanOrEqual column value) row
        schema cached = false ∧
      evaluate_predicate_optimized (.ColumnIn column values) row schema
        cached = false ∧
      evaluate_predicate_optimized (.ColumnIsNull column) row schema cached =
        false ∧
      evaluate_predicate_optimized (.ColumnIsNotNull column) row schema
        cached = false ∧
      evaluate_predicate_optimized (.ColumnLike column pattern) row schema
        cached = false ∧
      evaluate_predicate_optimized (.ColumnBetween column start stop) row
        schema cached = false ∧
      evaluate_predicate_optimized (.ColumnNotEquals column value) row schema
        cached = true ∧
      evaluate_predicate_optimized (.ColumnNotIn column values) row schema
        cached = true ∧
      evaluate_predicate_optimized (.Not (.ColumnEquals column value)) row
        schema cached = true := by
  have hbetween : evaluate_predicate_optimized
      (.ColumnBetween column start stop) row schema cached = false := by
    rw [evaluate_predicate_optimized]
    cases hc : cached.bind (alLookup column) with
    | none => rfl
    | some idx =>
    simp only []
    rw [h idx hc]
  refine ⟨match_value_unresolved column row value .eq cached h,
    match_value_unresolved column row value .gt cached h,
    match_value_unresolved column row value .lt cached h,
    match_any_unresolved column row value [.gt, .eq] cached h,
    match_any_unresolved column row value [.lt, .eq] cached h,
    in_list_unresolved column row values cached h,
    match_null_unresolved column row true cached h,
    match_null_unresolved column row false cached h,
    match_like_unresolved column row pattern cached h,
    hbetween, ?_, ?_, ?_⟩
  · rw [evaluate_predicate_optimized,
      match_value_unresolved column row value .eq cached h]
    rfl
  · rw [evaluate_predicate_optimized, in_list_unresolved column row values
      cached h]
    rfl
  · rw [evaluate_predicate_optimized, evaluate_predicate_optimized,
      match_value_unresolved column row value .eq cached h]
    rfl

/-- Witness for C6 at concrete inputs: an empty cached map and an empty row. -/
theorem c6_unresolved_column_evaluation_witness :
    evaluate_predicate_optimized
        (.ColumnEquals "x" (Value.Integer 1)) (Row.mk 1 []) (Schema.new [])
        none = false ∧
      evaluate_predicate_optimized
        (.ColumnNotIn "x" [Value.Integer 1]) (Row.mk 1 []) (Schema.new [])
        none = true := by
  have hfacts := c6_unresolved_column_evaluation "x" (Value.Integer 1)
    [Value.Integer 1] "p" (Value.Integer 0) (Value.Integer 9) (Row.mk 1 [])
    (Schema.new []) none (fun idx hidx => by cases hidx)
  exact ⟨hfacts.1, hfacts.2.2.2.2.2.2.2.2.2.2.2.1⟩

/-- Schema with the single Integer column c, for the C7 scenario. -/
def c7Schema : Schema := Schema.new [Column.mk "c" DataType.Integer false false]

/-- One leaf holding rows (1, c=1) and (2, c=2). -/
def c7Store : Store :=
  Store.mk
    [(1, Page.mk 1 true none [1, 2]
      [Row.mk 1 [Value.Integer 1], Row.mk 2 [Value.Integer 2]] [] none false)]
    2 [1]

/-- Scan with ORDER BY c DESC and LIMIT 1 (no predicate, no offset). -/
def c7Options : ScanOptions :=
  ScanOptions.mk none none (some 1) none false
    (some [OrderBy.mk "c" SortDirection.Descending]) (some c7Schema)

/-- C7: the claim (and the spec) says a scan with order_by must NOT terminate
early at the effective limit and must return rows [O, O+L) of the FULL
ordered filtered result. The code computes `effective_limit = limit + offset`
and breaks at it regardless of order_by; sorting only the prematurely
collected rows. On a leaf with c-values 1 then 2, ORDER BY c DESC LIMIT 1
returns the row with c = 1, while the specified full-materialization result
is the row with c = 2. -/
theorem c7_orderby_early_termination_bug :
    (sequential_scan c7Store 3 1 c7Options).map ScanResult.rows =
        some [Row.mk 1 [Value.Integer 1]] ∧
      specOrderedScanRows c7Store 3 1 c7Options =
        some [Row.mk 2 [Value.Integer 2]] ∧
      (sequential_scan c7Store 3 1 c7Options).map ScanResult.rows ≠
        specOrderedScanRows c7Store 3 1 c7Options := by
  decide

/-- Join condition on differently named columns, for the C8 scenario. -/
def c8Conds : List JoinCondition := [JoinCondition.mk "a" "b"]

/-- Left schema with the single column a. -/
def c8LeftSchema : Schema := Schema.new [Column.mk "a" DataType.Integer false false]

/-- Right schema with the single column b. -/
def c8RightSchema : Schema := Schema.new [Column.mk "b" DataType.Integer false false]

/-- C8: the claim says the right-outer build keys the hash table over the
left rows by the LEFT join columns, so it works when the two sides' column
names differ, and the probe then yields inner matches plus null-extended
unmatched right rows. In the code `build_hash_table` hardcodes
`is_left = false`, extracting keys with the RIGHT column names from the LEFT
schema: with columns named a (left) and b (right) and equal cell values, the
left-column extraction succeeds, but the build — and with it the whole
right-outer join, which should output 1 matched row — returns
InvalidOperation. -/
theorem c8_right_join_build_side_bug :
    extract_join_key c8Conds (Row.mk 1 [Value.Integer 7]) c8LeftSchema true =
        .ok [Value.Integer 7] ∧
      build_hash_table c8Conds [Row.mk 1 [Value.Integer 7]] c8LeftSchema =
        .error .InvalidOperation ∧
      right_outer_hash_join c8Conds [Row.mk 1 [Value.Integer 7]]
        [Row.mk 2 [Value.Integer 7]] c8LeftSchema c8RightSchema =
        .error .InvalidOperation := by
  refine ⟨rfl, rfl, rfl⟩

/-- A dirty page for the C9 scenario. -/
def c9DirtyPage : Page := Page.mk 1 true none [] [] [] none true

/-- A clean page for the C9 scenario. -/
def c9CleanPage : Page := Page.mk 2 true none [] [] [] none false

/-- A single-slot pool holding the dirty page 1. -/
def c9Pool0 : Pool := (Pool.new 1).put_page 1 c9DirtyPage

/-- C9 counterexample: the claim says eviction leaves the dirty set
unchanged, so the evicted dirty page 1 is still returned by
`get_dirty_pages`. In the code `evict_lru` removes the tail from the dirty
set too: after putting page 2 into the full single-slot pool, page 1 is gone
from the cache AND from the dirty set. -/
theorem c9_eviction_clears_dirty_counterexample :
    c9Pool0.is_dirty_page 1 = true ∧
      (c9Pool0.put_page 2 c9CleanPage).cache.map Prod.fst = [2] ∧
      (c9Pool0.put_page 2 c9CleanPage).get_dirty_pages = [] ∧
      (c9Pool0.put_page 2 c9CleanPage).is_dirty_page 1 = false := by
  decide

/-- C9 amended: `put_page` of a fresh id into a cache at `max_pages` capacity
evicts exactly the LRU tail `t`, removing it from the cache, the LRU list AND
the dirty set (so an evicted dirty page is no longer returned by
`get_dirty_pages`); every other entry of cache and dirty set is untouched,
the new id lands at the front of the LRU list, and it is recorded dirty
exactly when the inserted page is dirty. -/
theorem c9_lru_eviction_amended (p : Pool) (id : Nat) (page : Page) (t : Nat)
    (hfull : p.cache.length = p.max_pages)
    (hnew : alLookup id p.cache = none)
    (htail : p.order.getLast? = some t)
    (htc : (alLookup t p.cache).isSome = true) :
    alLookup t (p.put_page id page).cache = none ∧
      alLookup id (p.put_page id page).cache = some page ∧
      (∀ j, j ≠ t → j ≠ id →
        alLookup j (p.put_page id page).cache = alLookup j p.cache) ∧
      (p.put_page id page).order = id :: p.order.dropLast ∧
      alLookup t (p.put_page id page).dirty = none ∧
      (∀ j, j ≠ t → j ≠ id →
        alLookup j (p.put_page id page).dirty = alLookup j p.dirty) ∧
      (page.is_dirty = true →
        alLookup id (p.put_page id page).dirty = some page) ∧
      (page.is_dirty = false →
        alLookup id (p.put_page id page).dirty = alLookup id p.dirty) := by
  have htid : t ≠ id := by
    intro he
    rw [he, hnew] at htc
    simp at htc
  have hstep : p.put_page id page =
      (if page.is_dirty then
        Pool.mk (alInsert id page (alErase t p.cache)) (id :: p.order.dropLast)
          (alInsert id page (alErase t p.dirty)) p.max_pages
      else
        Pool.mk (alInsert id page (alErase t p.cache)) (id :: p.order.dropLast)
          (alErase t p.dirty) p.max_pages) := by
    rw [Pool.put_page]
    rw [hnew]
    simp only [Option.isSome_none, Bool.false_eq_true, if_false]
    rw [if_pos (by omega : p.max_pages ≤ p.cache.length)]
    rw [Pool.evict_lru, htail]
    simp only []
    rw [if_pos htc]
  rw [hstep]
  cases hd : page.is_dirty
  · rw [if_neg (by simp)]
    refine ⟨?_, ?_, ?_, rfl, ?_, ?_, ?_, ?_⟩
    · rw [alLookup_insert, if_neg htid, alLookup_erase, if_pos rfl]
    · rw [alLookup_insert, if_pos rfl]
    · intro j hjt hji
      rw [alLookup_insert, if_neg hji, alLookup_erase, if_neg hjt]
    · rw [alLookup_erase, if_pos rfl]
    · intro j hjt hji
      rw [alLookup_erase, if_neg hjt]
    · intro hcontra
      simp at hcontra
    · intro _
      rw [alLookup_erase, if_neg (fun he => htid he.symm)]
  · rw [if_pos rfl]
    refine ⟨?_, ?_, ?_, rfl, ?_, ?_, ?_, ?_⟩
    · rw [alLookup_insert, if_neg htid, alLookup_erase, if_pos rfl]
    · rw [alLookup_insert, if_pos rfl]
    · intro j hjt hji
      rw [alLookup_insert, if_neg hji, alLookup_erase, if_neg hjt]
    · rw [alLookup_insert, if_neg htid, alLookup_erase, if_pos rfl]
    · intro j hjt hji
      rw [alLookup_insert, if_neg hji, alLookup_erase, if_neg hjt]
    · intro _
      rw [alLookup_insert, if_pos rfl]
    · intro hcontra
      simp at hcontra

/-- Witness for C9 at a concrete pool: putting page 2 into the full
single-slot pool evicts page 1 from cache and dirty set and leaves the LRU
list as just page 2. -/
theorem c9_lru_eviction_amended_witness :
    alLookup 1 ((c9Pool0.put_page 2 c9CleanPage).cache) = none ∧
      alLookup 2 ((c9Pool0.put_page 2 c9CleanPage).cache) = some c9CleanPage ∧
      (c9Pool0.put_page 2 c9CleanPage).order = [2] ∧
      alLookup 1 ((c9Pool0.put_page 2 c9CleanPage).dirty) = none := by
  have hfacts := c9_lru_eviction_amended c9Pool0 2 c9CleanPage 1
    (by decide) (by decide) (by decide) (by decide)
  refine ⟨hfacts.1, hfacts.2.1, ?_, hfacts.2.2.2.2.1⟩
  rw [hfacts.2.2.2.1]
  decide

/-- C10: after `truncate()` the next page id is 1 while the freshly written
empty root leaf also lives at page id 1 (no allocation happened in between);
the first `allocate_page()` afterwards therefore returns 1, the id of the
live root — the next allocated page collides with the existing root. -/
theorem c10_truncate_allocate_collision (s : Store) :
    s.truncate.nextPageId = 1 ∧
      s.truncate.readPage 1 = some (Page.mk 1 true none [] [] [] none true) ∧
      (s.truncate.allocatePage).1 = 1 ∧
      (s.truncate.readPage (s.truncate.allocatePage).1).isSome = true := by
  refine ⟨rfl, ?_, rfl, ?_⟩ <;>
    simp [Store.truncate, Store.writePage, Store.registerLeafPage,
      Store.readPage, Store.allocatePage, alInsert, alErase, alLookup]

end Bambang
